import Mathlib

/-!
# Semantic analysis (`semant.cc`): a shallow embedding

The embedding follows `src/semant.cc` function by function.

* A `Symbol` is an interned identifier.  The identifier table hands out one
  canonical entry per text, so pointer comparison (`==`, `!=`, the keys of
  `std::map`) and text comparison (`strcmp`, `sameType`) agree; both are
  modelled by equality of the text.
* The globals `semant_errors` / `error_stream`, `objectEnv` and `callTable` are
  the three fields of `SemState`, passed explicitly.  Every call of
  `semant_error` writes one message and increments the counter once, so the
  counter is the length of the recorded message list.
* Source line numbers and the debug trace (`semant_debug`) have no effect on
  the analysis and are left out.  The type recorded on a node by `setType` is
  only ever read back inside the same method (or printed), so node decoration
  is not part of the state.
* A method whose C++ body has no defined result (the stubbed logical and
  bitwise operators, which fall off the end of a non-void function; `nth` past
  the end of a list; leaving a scope that was never entered) yields `none`.
-/

namespace Semant

/-- An interned identifier, identified by its text. -/
abbrev Symbol := String

/-- The predefined symbol `Int` (`initialize_constants`). -/
def Sym.Int : Symbol := "Int"
/-- The predefined symbol `Float`. -/
def Sym.Float : Symbol := "Float"
/-- The predefined symbol `Bool`. -/
def Sym.Bool : Symbol := "Bool"
/-- The predefined symbol `Void`. -/
def Sym.Void : Symbol := "Void"
/-- The predefined symbol `Main`, the text `main`. -/
def Sym.Main : Symbol := "main"
/-- The predefined symbol `print`, the text `printf`. -/
def Sym.print : Symbol := "printf"
/-- The predefined symbol `String`. -/
def Sym.String : Symbol := "String"

/-- The function `isValidCallName`: `type != print`. -/
def isValidCallName (type : Symbol) : Bool := type != Sym.print

/-- The function `isValidTypeName`: `type != Void`. -/
def isValidTypeName (type : Symbol) : Bool := type != Sym.Void

/-- The function `sameType`: `strcmp` of the two texts is zero. -/
def sameType (name1 name2 : Symbol) : Bool := name1 == name2

/-! ## Abstract syntax (the node classes used by `semant.cc`) -/

/-- A `Variable`: a name with its declared type (`getName`, `getType`). -/
structure Variable where
  name : Symbol
  type : Symbol
deriving DecidableEq, Repr

/-- A `VariableDecl` wraps one `Variable` (the member `variable`); `getName` and
`getType` delegate to it. -/
structure VariableDecl where
  variable_ : Variable
deriving DecidableEq, Repr

/-- The function `VariableDecl_class::getName`. -/
def VariableDecl.getName (d : VariableDecl) : Symbol := d.variable_.name

/-- The function `VariableDecl_class::getType`. -/
def VariableDecl.getType (d : VariableDecl) : Symbol := d.variable_.type

mutual
/-- Expression nodes, one constructor per `..._class` with a `checkType`. -/
inductive Expr where
  | Call (name : Symbol) (actuals : Actuals)
  | Assign (lvalue : Symbol) (value : Expr)
  | Add (e1 e2 : Expr)
  | Minus (e1 e2 : Expr)
  | Multi (e1 e2 : Expr)
  | Divide (e1 e2 : Expr)
  | Mod (e1 e2 : Expr)
  | Neg (e1 : Expr)
  | Lt (e1 e2 : Expr)
  | Le (e1 e2 : Expr)
  | Equ (e1 e2 : Expr)
  | Neq (e1 e2 : Expr)
  | Ge (e1 e2 : Expr)
  | Gt (e1 e2 : Expr)
  | And (e1 e2 : Expr)
  | Or (e1 e2 : Expr)
  | Xor (e1 e2 : Expr)
  | Not (e1 : Expr)
  | Bitand (e1 e2 : Expr)
  | Bitor (e1 e2 : Expr)
  | Bitnot (e1 : Expr)
  | Const_int (value : Symbol)
  | Const_string (value : Symbol)
  | Const_float (value : Symbol)
  | Const_bool (value : Bool)
  | Object (var : Symbol)
  | No_expr
/-- An `Actual` wraps the expression passed at one argument position. -/
inductive Actual where
  | mk (expr : Expr)
/-- The list `Actuals` of a call, in positional order. -/
inductive Actuals where
  | nil
  | cons (head : Actual) (tail : Actuals)
end

/-- The function `Actuals::len`. -/
def Actuals.len : Actuals → Nat
  | .nil => 0
  | .cons _ tail => tail.len + 1

mutual
/-- Statement nodes, one constructor per `..._class` with a `check`. -/
inductive Stmt where
  | Block (block : StmtBlock)
  | IfStmt (condition : Expr) (thenexpr elseexpr : StmtBlock)
  | WhileStmt (condition : Expr) (body : StmtBlock)
  | ForStmt (initexpr condition loopact : Expr) (body : StmtBlock)
  | ReturnStmt (value : Expr)
  | ContinueStmt
  | BreakStmt
/-- A `StmtBlock`: local variable declarations, then statements. -/
inductive StmtBlock where
  | mk (vars : List VariableDecl) (stmts : Stmts)
/-- The list `Stmts` of a block, in order. -/
inductive Stmts where
  | nil
  | cons (head : Stmt) (tail : Stmts)
end

/-- A `CallDecl`: a function declaration. -/
structure CallDecl where
  name : Symbol
  paras : List Variable
  returnType : Symbol
  body : StmtBlock

/-- The function `CallDecl_class::getVariables`. -/
def CallDecl.getVariables (c : CallDecl) : List Variable := c.paras

/-- The function `CallDecl_class::getType`, the declared return type. -/
def CallDecl.getType (c : CallDecl) : Symbol := c.returnType

/-- A top-level `Decl` is a function or a variable (`isCallDecl`). -/
inductive Decl where
  | callDecl (c : CallDecl)
  | variableDecl (v : VariableDecl)

/-! ## The scoped binding environment (`SymbolTable<Symbol, Symbol>`) -/

/-- Modelled from the spec: the class template `SymbolTable` is declared outside
`semant.cc`.  One scope is a mapping from identifier to declared type; the most
recent binding of a name is found first. -/
abbrev Scope := List (Symbol × Symbol)

/-- Modelled from the spec: the Binding Environment is an ordered stack of
scopes, innermost first (`SymbolTable` itself is not part of `semant.cc`). -/
abbrev ObjectEnvironment := List Scope

/-- Modelled from the spec: `enter_scope` of the missing `SymbolTable` pushes an
empty mapping. -/
def ObjectEnvironment.enterscope (env : ObjectEnvironment) : ObjectEnvironment :=
  [] :: env

/-- Modelled from the spec: `exit_scope` of the missing `SymbolTable` pops the
top mapping, discarding its bindings; on an empty stack it is a fatal
programming error. -/
def ObjectEnvironment.exitscope : ObjectEnvironment → Option ObjectEnvironment
  | [] => none
  | _ :: rest => some rest

/-- Modelled from the spec: `bind` of the missing `SymbolTable` inserts into the
current scope without checking prior existence; without a current scope there
is nothing to insert into. -/
def ObjectEnvironment.addid (name type : Symbol) :
    ObjectEnvironment → Option ObjectEnvironment
  | [] => none
  | scope :: rest => some (((name, type) :: scope) :: rest)

/-- Modelled from the spec: `lookup` of the missing `SymbolTable` scans from the
innermost scope outward and returns the first match (`NULL` is `none`). -/
def ObjectEnvironment.lookup (name : Symbol) : ObjectEnvironment → Option Symbol
  | [] => none
  | scope :: rest =>
    match List.lookup name scope with
    | some type => some type
    | none => ObjectEnvironment.lookup name rest

/-- Modelled from the spec: `probe_current` of the missing `SymbolTable`
consults only the top mapping (`NULL` is `none`). -/
def ObjectEnvironment.probe (name : Symbol) : ObjectEnvironment → Option Symbol
  | [] => none
  | scope :: _ => List.lookup name scope

/-- The scope-stack depth of a binding environment. -/
def ObjectEnvironment.depth (env : ObjectEnvironment) : Nat := env.length

/-! ## The call registry (`std::map<Symbol, CallDecl>`) -/

/-- The type `CallTable`: a map with unique keys, kept as an association list
in order of insertion. -/
abbrev CallTable := List (Symbol × CallDecl)

/-- The call `callTable.find(name)`; `callTable.end()` is `none`. -/
def CallTable.find (name : Symbol) (t : CallTable) : Option CallDecl :=
  List.lookup name t

/-- The assignment `callTable[name] = call`: overwrite the entry of an existing
key, otherwise add a new entry. -/
def CallTable.set (name : Symbol) (call : CallDecl) : CallTable → CallTable
  | [] => [(name, call)]
  | (k, c) :: rest =>
    if k == name then (k, call) :: rest else (k, c) :: CallTable.set name call rest

/-! ## Diagnostics and the analysis state -/

/-- One constructor per message written after a call of `semant_error`. -/
inductive Diag where
  /-- Function printf cannot be redefination. -/
  | printfRedefinition
  /-- Function printf cannot have a name as printf. -/
  | printfName
  /-- Function `name` was previously defined. -/
  | functionPreviouslyDefined (name : Symbol)
  /-- The message: var `name` was previously defined. -/
  | varPreviouslyDefined (name : Symbol)
  /-- Main function is not defined. -/
  | mainNotDefined
  /-- Main function should not have any parameters. -/
  | mainParameters
  /-- Main function should have return type Void. -/
  | mainReturnType
  /-- The message: var `name` cannot be of type Void. -/
  | varVoid (name : Symbol)
  /-- The message: redifined. -/
  | redefined
  /-- ReturnType can not be print. -/
  | returnTypePrint
  /-- Function `fn` 's parameter has an invalid type Void. -/
  | parameterVoid (fn : Symbol)
  /-- Function `fn` 's parameter has a duplicate name `param`. -/
  | parameterDuplicate (fn param : Symbol)
  /-- Predicate of 'if' does not have type Bool. -/
  | ifPredicate
  /-- The message: the first of print should be string. -/
  | printFirstString
  /-- The message: noname. -/
  | noname
  /-- Function `name` called with wrong number of arguments. -/
  | wrongArgumentCount (name : Symbol)
  /-- Function `name` , the `i` parameter should be `expected` but provided a
  `provided`. -/
  | argumentType (name : Symbol) (i : Nat) (expected provided : Symbol)
  /-- Left value `lvalue` has not been defined. -/
  | leftValueUndefined (lvalue : Symbol)
  /-- Right value must have type `expected` , got `actual`. -/
  | rightValueType (expected actual : Symbol)
  /-- Cannot compare a `type1` and a `type2`. -/
  | cannotCompare (type1 type2 : Symbol)
  /-- Cannot mod a `type1` and a `type2`. -/
  | cannotMod (type1 type2 : Symbol)
  /-- A `type1` doesn't have a negative. -/
  | noNegative (type1 : Symbol)
  /-- The message: object `var` has not been defined. -/
  | objectUndefined (var : Symbol)
deriving DecidableEq, Repr

/-- The mutable globals of `semant.cc`. -/
structure SemState where
  error_stream : List Diag
  objectEnv : ObjectEnvironment
  callTable : CallTable

/-- The counter `semant_errors`: one increment per recorded message. -/
def SemState.semant_errors (s : SemState) : Nat := s.error_stream.length

/-- The function `semant_error` together with the message streamed into its
result: count one more error and record the message. -/
def semant_error (d : Diag) (s : SemState) : SemState :=
  { s with error_stream := s.error_stream ++ [d] }

/-- The call `objectEnv.enterscope()`. -/
def SemState.enterscope (s : SemState) : SemState :=
  { s with objectEnv := s.objectEnv.enterscope }

/-- The call `objectEnv.exitscope()`. -/
def SemState.exitscope (s : SemState) : Option SemState :=
  match s.objectEnv.exitscope with
  | none => none
  | some env => some { s with objectEnv := env }

/-- The call `objectEnv.addid(name, new Symbol(type))`. -/
def SemState.addid (name type : Symbol) (s : SemState) : Option SemState :=
  match s.objectEnv.addid name type with
  | none => none
  | some env => some { s with objectEnv := env }

/-! ## The expression type checker (`..._class::checkType`) -/

/-- The body shared, text for text, by `Add`, `Minus`, `Multi`, `Divide`, `Lt`,
`Le`, `Ge` and `Gt` once both operands are checked. -/
def compareRule (type1 type2 : Symbol) (s : SemState) : Symbol × SemState :=
  if (!sameType type1 Sym.Int && !sameType type1 Sym.Float)
      || (!sameType type2 Sym.Int && !sameType type2 Sym.Float) then
    (Sym.Void, semant_error (.cannotCompare type1 type2) s)
  else
    (Sym.Bool, s)

/-- The body shared by `Equ` and `Neq` once both operands are checked. -/
def equalityRule (type1 type2 : Symbol) (s : SemState) : Symbol × SemState :=
  if (!sameType type1 Sym.Int && !sameType type1 Sym.Float && !sameType type1 Sym.Bool)
      || (!sameType type2 Sym.Int && !sameType type2 Sym.Float
          && !sameType type2 Sym.Bool) then
    (Sym.Void, semant_error (.cannotCompare type1 type2) s)
  else
    (Sym.Bool, s)

/-- The body of `Mod_class::checkType` once both operands are checked. -/
def modRule (type1 type2 : Symbol) (s : SemState) : Symbol × SemState :=
  if !sameType type1 Sym.Int || !sameType type2 Sym.Int then
    (Sym.Void, semant_error (.cannotMod type1 type2) s)
  else
    (Sym.Bool, s)

/-- The body of `Neg_class::checkType` once the operand is checked. -/
def negRule (type1 : Symbol) (s : SemState) : Symbol × SemState :=
  if !sameType type1 Sym.Int && !sameType type1 Sym.Float then
    (Sym.Void, semant_error (.noNegative type1) s)
  else
    (Sym.Bool, s)

mutual
/-- The methods `checkType` of the expression classes. -/
def Expr.checkType : Expr → SemState → Option (Symbol × SemState)
  | .Call name actuals, s =>
    match s.callTable.find name with
    | none =>
      if name != Sym.print then
        -- `strcmp(name->get_string(), "printf")` is non-zero: another name
        match actuals.checkFirst s with
        | none => none
        | some (type, s1) =>
          if !sameType type Sym.String then
            some (Sym.Void, semant_error .printFirstString s1)
          else
            some (Sym.Void, s1)
      else
        some (Sym.Void, semant_error .noname s)
    | some decl =>
      if decl.getVariables.length != actuals.len then
        match (semant_error (.wrongArgumentCount name) s).callTable.find name with
        | none => none
        | some decl1 => some (decl1.getType, semant_error (.wrongArgumentCount name) s)
      else
        match actuals.checkArguments name decl.getVariables 0 s with
        | none => none
        | some s1 =>
          match s1.callTable.find name with
          | none => none
          | some decl1 => some (decl1.getType, s1)
  | .Assign lvalue value, s =>
    match s.objectEnv.lookup lvalue with
    | none => some (Sym.Void, semant_error (.leftValueUndefined lvalue) s)
    | some _ =>
      match value.checkType s with
      | none => none
      | some (actualType, s1) =>
        match s1.objectEnv.lookup lvalue with
        | none => none
        | some expectedType =>
          if !sameType expectedType actualType then
            some (expectedType, semant_error (.rightValueType expectedType actualType) s1)
          else
            some (expectedType, s1)
  | .Add e1 e2, s =>
    match e1.checkType s with
    | none => none
    | some (type1, s1) =>
      match e2.checkType s1 with
      | none => none
      | some (type2, s2) => some (compareRule type1 type2 s2)
  | .Minus e1 e2, s =>
    match e1.checkType s with
    | none => none
    | some (type1, s1) =>
      match e2.checkType s1 with
      | none => none
      | some (type2, s2) => some (compareRule type1 type2 s2)
  | .Multi e1 e2, s =>
    match e1.checkType s with
    | none => none
    | some (type1, s1) =>
      match e2.checkType s1 with
      | none => none
      | some (type2, s2) => some (compareRule type1 type2 s2)
  | .Divide e1 e2, s =>
    match e1.checkType s with
    | none => none
    | some (type1, s1) =>
      match e2.checkType s1 with
      | none => none
      | some (type2, s2) => some (compareRule type1 type2 s2)
  | .Mod e1 e2, s =>
    match e1.checkType s with
    | none => none
    | some (type1, s1) =>
      match e2.checkType s1 with
      | none => none
      | some (type2, s2) => some (modRule type1 type2 s2)
  | .Neg e1, s =>
    match e1.checkType s with
    | none => none
    | some (type1, s1) => some (negRule type1 s1)
  | .Lt e1 e2, s =>
    match e1.checkType s with
    | none => none
    | some (type1, s1) =>
      match e2.checkType s1 with
      | none => none
      | some (type2, s2) => some (compareRule type1 type2 s2)
  | .Le e1 e2, s =>
    match e1.checkType s with
    | none => none
    | some (type1, s1) =>
      match e2.checkType s1 with
      | none => none
      | some (type2, s2) => some (compareRule type1 type2 s2)
  | .Equ e1 e2, s =>
    match e1.checkType s with
    | none => none
    | some (type1, s1) =>
      match e2.checkType s1 with
      | none => none
      | some (type2, s2) => some (equalityRule type1 type2 s2)
  | .Neq e1 e2, s =>
    match e1.checkType s with
    | none => none
    | some (type1, s1) =>
      match e2.checkType s1 with
      | none => none
      | some (type2, s2) => some (equalityRule type1 type2 s2)
  | .Ge e1 e2, s =>
    match e1.checkType s with
    | none => none
    | some (type1, s1) =>
      match e2.checkType s1 with
      | none => none
      | some (type2, s2) => some (compareRule type1 type2 s2)
  | .Gt e1 e2, s =>
    match e1.checkType s with
    | none => none
    | some (type1, s1) =>
      match e2.checkType s1 with
      | none => none
      | some (type2, s2) => some (compareRule type1 type2 s2)
  -- the bodies of the logical and bitwise operators end without a `return`
  | .And _ _, _ => none
  | .Or _ _, _ => none
  | .Xor _ _, _ => none
  | .Not _, _ => none
  | .Bitand _ _, _ => none
  | .Bitor _ _, _ => none
  | .Bitnot _, _ => none
  | .Const_int _, s => some (Sym.Int, s)
  | .Const_string _, s => some (Sym.String, s)
  | .Const_float _, s => some (Sym.Float, s)
  | .Const_bool _, s => some (Sym.Bool, s)
  | .Object var, s =>
    match s.objectEnv.lookup var with
    | none => some (Sym.Void, semant_error (.objectUndefined var) s)
    | some type => some (type, s)
  | .No_expr, s => some (Sym.Void, s)
/-- The method `Actual_class::checkType`: the type of the wrapped expression. -/
def Actual.checkType : Actual → SemState → Option (Symbol × SemState)
  | .mk expr, s => expr.checkType s
/-- The call `actuals->nth(0)->checkType()`; an empty list has no element 0. -/
def Actuals.checkFirst : Actuals → SemState → Option (Symbol × SemState)
  | .nil, _ => none
  | .cons first _, s => first.checkType s
/-- The loop of `Call_class::checkType` over the positions `i` of the parameter
list, run once the two lists are known to have the same length: position `i`
compares `variables1->nth(i)->getType()` with `actuals1->nth(i)->checkType()`.
Reading an actual past the end of the list has no result. -/
def Actuals.checkArguments :
    Actuals → Symbol → List Variable → Nat → SemState → Option SemState
  | _, _, [], _, s => some s
  | .nil, _, _ :: _, _, _ => none
  | .cons actual rest, name, variable1 :: variables1, i, s =>
    match actual.checkType s with
    | none => none
    | some (type, s1) =>
      if variable1.type != type then
        rest.checkArguments name variables1 (i + 1)
          (semant_error (.argumentType name i variable1.type type) s1)
      else
        rest.checkArguments name variables1 (i + 1) s1
end

/-! ## Declarations and statements (`..._class::check`) -/

/-- The method `VariableDecl_class::check`. -/
def VariableDecl.check (d : VariableDecl) (s : SemState) : Option SemState :=
  if !isValidTypeName d.variable_.type then
    some (semant_error (.varVoid d.variable_.name) s)
  else if (s.objectEnv.probe d.variable_.name).isSome then
    some (semant_error .redefined s)
  else
    s.addid d.getName d.getType

/-- The first loop of `StmtBlock_class::check`: each local declaration is
checked in order. -/
def checkLocalVarDecls : List VariableDecl → SemState → Option SemState
  | [], s => some s
  | localVarDecl :: rest, s =>
    match localVarDecl.check s with
    | none => none
    | some s1 => checkLocalVarDecls rest s1

mutual
/-- The methods `check(Symbol type)` of the statement classes. -/
def Stmt.check : Stmt → Symbol → SemState → Option SemState
  | .Block block, type, s => block.check type s
  | .IfStmt condition thenexpr elseexpr, type, s =>
    -- `getCondition()->checkType()->get_string();`
    match condition.checkType s with
    | none => none
    | some (_, s1) =>
      -- `if (getCondition()->checkType() != Bool)`
      match condition.checkType s1 with
      | none => none
      | some (conditionType, s2) =>
        let s3 := if conditionType != Sym.Bool then semant_error .ifPredicate s2 else s2
        match thenexpr.check type s3.enterscope with
        | none => none
        | some s4 =>
          match elseexpr.check type s4 with
          | none => none
          | some s5 => s5.exitscope
  | .WhileStmt _ _, _, s => some s
  | .ForStmt _ _ _ _, _, s => some s
  | .ReturnStmt _, _, s => some s
  | .ContinueStmt, _, s => some s
  | .BreakStmt, _, s => some s
/-- The method `StmtBlock_class::check`. -/
def StmtBlock.check : StmtBlock → Symbol → SemState → Option SemState
  | .mk vars stmts, type, s =>
    match checkLocalVarDecls vars s.enterscope with
    | none => none
    | some s1 =>
      match stmts.check type s1 with
      | none => none
      | some s2 => s2.exitscope
/-- The second loop of `StmtBlock_class::check`: each statement is checked in
order with the same `type`. -/
def Stmts.check : Stmts → Symbol → SemState → Option SemState
  | .nil, _, s => some s
  | .cons localStmt rest, type, s =>
    match localStmt.check type s with
    | none => none
    | some s1 => rest.check type s1
end

/-- One round of the parameter loop of `CallDecl_class::check`, for the function
named `fn`. -/
def checkParam (fn : Symbol) (param : Variable) (s : SemState) : Option SemState :=
  let flag1 := !(param.type == Sym.Void)
  let s1 := if param.type == Sym.Void then semant_error (.parameterVoid fn) s else s
  let flag2 := !(s1.objectEnv.probe param.name == some param.type)
  let s2 :=
    if s1.objectEnv.probe param.name == some param.type then
      semant_error (.parameterDuplicate fn param.name) s1
    else s1
  if flag1 && flag2 then s2.addid param.name param.type else some s2

/-- The parameter loop of `CallDecl_class::check`. -/
def checkParams (fn : Symbol) : List Variable → SemState → Option SemState
  | [], s => some s
  | param :: rest, s =>
    match checkParam fn param s with
    | none => none
    | some s1 => checkParams fn rest s1

/-- The method `CallDecl_class::check`. -/
def CallDecl.check (c : CallDecl) (s : SemState) : Option SemState :=
  let s1 := if !isValidCallName c.getType then semant_error .returnTypePrint s else s
  match checkParams c.name c.getVariables s1.enterscope with
  | none => none
  | some s2 =>
    match c.body.check c.getType s2 with
    | none => none
    | some s3 => s3.exitscope

/-! ## The passes of the driver -/

/-- One round of the loop of `install_calls`. -/
def install_call (tmp_decl : Decl) (s : SemState) : SemState :=
  match tmp_decl with
  | .variableDecl _ => s
  | .callDecl call =>
    if call.name == "printf" then
      semant_error .printfName (semant_error .printfRedefinition s)
    else if (s.callTable.find call.name).isSome then
      semant_error (.functionPreviouslyDefined call.name) s
    else
      { s with callTable := s.callTable.set call.name call }

/-- The function `install_calls`. -/
def install_calls (decls : List Decl) (s : SemState) : SemState :=
  decls.foldl (fun st tmp_decl => install_call tmp_decl st) s

/-- One round of the loop of `install_globalVars`. -/
def install_globalVar (tmp_decl : Decl) (s : SemState) : Option SemState :=
  match tmp_decl with
  | .callDecl _ => some s
  | .variableDecl variableDecl =>
    if (s.objectEnv.lookup variableDecl.getName).isSome then
      some (semant_error (.varPreviouslyDefined variableDecl.getName) s)
    else
      s.addid variableDecl.getName variableDecl.getType

/-- The function `install_globalVars`. -/
def install_globalVars : List Decl → SemState → Option SemState
  | [], s => some s
  | tmp_decl :: rest, s =>
    match install_globalVar tmp_decl s with
    | none => none
    | some s1 => install_globalVars rest s1

/-- The function `check_main`. -/
def check_main (s : SemState) : SemState :=
  match s.callTable.find Sym.Main with
  | none => semant_error .mainNotDefined s
  | some main =>
    let s1 := if main.getVariables.length != 0 then semant_error .mainParameters s else s
    if main.getType != Sym.Void then semant_error .mainReturnType s1 else s1

/-- The loop of `check_calls` over the entries of the registry.  The C++ map
iterates in the order of its keys, the addresses of the interned names; the
entries are visited here in the order in which the list holds them. -/
def check_callList : List (Symbol × CallDecl) → SemState → Option SemState
  | [], s => some s
  | (_, call) :: rest, s =>
    match call.check s with
    | none => none
    | some s1 => check_callList rest s1

/-- The function `check_calls`. -/
def check_calls (s : SemState) : Option SemState :=
  check_callList s.callTable s

/-- The state at program start: no message, no scope, no function. -/
def SemState.initial : SemState :=
  { error_stream := [], objectEnv := [], callTable := [] }

/-- The method `Program_class::semant`, up to the final test of
`semant_errors`. -/
def semant (decls : List Decl) : Option SemState :=
  let s1 := install_calls decls SemState.initial
  let s2 := check_main s1
  match install_globalVars decls s2.enterscope with
  | none => none
  | some s3 =>
    match check_calls s3 with
    | none => none
    | some s4 => s4.exitscope

/-- The final test of `Program_class::semant`: the compilation is halted when
any error was counted. -/
def halted (s : SemState) : Bool := decide (s.semant_errors > 0)

/-! ## Vocabulary of the statements about calls and declarations -/

/-- The actuals of a call as a list, in positional order. -/
def Actuals.toList : Actuals → List Actual
  | .nil => []
  | .cons head tail => head :: tail.toList

/-- The type that the check of the actual `a` returns in the state `s`. -/
def Actual.typeIn (a : Actual) (s : SemState) : Option Symbol :=
  (a.checkType s).map Prod.fst

/-- The diagnostics that the check of the actual `a` writes in the state `s`. -/
def Actual.diagnosticsIn (a : Actual) (s : SemState) : List Diag :=
  match a.checkType s with
  | none => []
  | some (_, s') => s'.error_stream.drop s.error_stream.length

/-- The diagnostics expected of a call with matching argument count, from the
words of the specification: at each position in order, the diagnostics of the
check of the actual, then one diagnostic when the checked type differs from the
declared type of the parameter at that position. -/
def argumentTrace (name : Symbol) (s : SemState) :
    List Variable → List Actual → Nat → List Diag
  | v :: vs, a :: as, i =>
    a.diagnosticsIn s
      ++ (match a.typeIn s with
          | some t => if t = v.type then [] else [.argumentType name i v.type t]
          | none => [])
      ++ argumentTrace name s vs as (i + 1)
  | _, _, _ => []

/-- The number of positions at which the checked type of the actual differs
from the declared type of the parameter. -/
def mismatches (s : SemState) : List Variable → List Actual → Nat
  | v :: vs, a :: as =>
    (if a.typeIn s = some v.type then 0 else 1) + mismatches s vs as
  | _, _ => 0

/-- The first function declaration named `n`, in list order. -/
def firstCallDecl (n : Symbol) : List Decl → Option CallDecl
  | [] => none
  | .callDecl c :: rest => if c.name = n then some c else firstCallDecl n rest
  | .variableDecl _ :: rest => firstCallDecl n rest

/-- The first global variable declaration named `n`, in list order. -/
def firstVariableDecl (n : Symbol) : List Decl → Option VariableDecl
  | [] => none
  | .callDecl _ :: rest => firstVariableDecl n rest
  | .variableDecl v :: rest => if v.getName = n then some v else firstVariableDecl n rest

/-! ## Example programs -/

/-- The empty block. -/
def emptyBlock : StmtBlock := .mk [] .nil

/-- The declaration `Float f(Int a, Int b)` with an empty body. -/
def declF : CallDecl :=
  { name := "f", paras := [⟨"a", Sym.Int⟩, ⟨"b", Sym.Int⟩], returnType := Sym.Float,
    body := emptyBlock }

/-- A state whose registry holds `f` only, with one empty scope entered. -/
def stateF : SemState :=
  { error_stream := [], objectEnv := [[]], callTable := [("f", declF)] }

/-- The actuals `(1, 2, 3)`. -/
def actuals123 : Actuals :=
  .cons (.mk (.Const_int "1")) (.cons (.mk (.Const_int "2")) (.cons (.mk (.Const_int "3")) .nil))

/-- The actuals `(1 + "a", 2.0)`. -/
def actualsBad : Actuals :=
  .cons (.mk (.Add (.Const_int "1") (.Const_string "a")))
    (.cons (.mk (.Const_float "2.0")) .nil)

/-- The actuals `("a")`. -/
def actualsA : Actuals := .cons (.mk (.Const_string "a")) .nil

/-- The actuals `(42)`. -/
def actuals42 : Actuals := .cons (.mk (.Const_int "42")) .nil

/-- The declaration `Void printf()` with an empty body. -/
def declPrintf : CallDecl :=
  { name := "printf", paras := [], returnType := Sym.Void, body := emptyBlock }

/-- A second declaration of `f`: `Int f()` with an empty body. -/
def declF2 : CallDecl :=
  { name := "f", paras := [], returnType := Sym.Int, body := emptyBlock }

/-- The declaration `Int main(Int argc)` with an empty body. -/
def declMainBad : CallDecl :=
  { name := "main", paras := [⟨"argc", Sym.Int⟩], returnType := Sym.Int, body := emptyBlock }

/-- The declaration `Void main()` with an empty body. -/
def declMainGood : CallDecl :=
  { name := "main", paras := [], returnType := Sym.Void, body := emptyBlock }

/-- The global declaration `Int x`. -/
def declXInt : VariableDecl := ⟨⟨"x", Sym.Int⟩⟩

/-- The global declaration `Float x`. -/
def declXFloat : VariableDecl := ⟨⟨"x", Sym.Float⟩⟩

/-- The top-level list `printf`, `f`, `Int x`, `f` again, `Float x`. -/
def sampleDecls : List Decl :=
  [.callDecl declPrintf, .callDecl declF, .variableDecl declXInt, .callDecl declF2,
    .variableDecl declXFloat]

/-- The initial state after entering the outermost scope. -/
def stateGlobal : SemState :=
  { error_stream := [], objectEnv := ObjectEnvironment.enterscope [], callTable := [] }

/-! ## Vocabulary of the statements about scopes -/

mutual
/-- Every `if` condition inside the statement has a check that returns in every
state whose registry is `ct` (no stubbed operator is reached and no missing
first actual is read). -/
def Stmt.conditionsReturn (ct : CallTable) : Stmt → Prop
  | .Block block => block.conditionsReturn ct
  | .IfStmt condition thenexpr elseexpr =>
    (∀ s : SemState, s.callTable = ct → (condition.checkType s).isSome)
      ∧ thenexpr.conditionsReturn ct ∧ elseexpr.conditionsReturn ct
  | .WhileStmt _ _ => True
  | .ForStmt _ _ _ _ => True
  | .ReturnStmt _ => True
  | .ContinueStmt => True
  | .BreakStmt => True
/-- Every `if` condition inside the block has a check that returns. -/
def StmtBlock.conditionsReturn (ct : CallTable) : StmtBlock → Prop
  | .mk _ stmts => stmts.conditionsReturn ct
/-- Every `if` condition inside the statements has a check that returns. -/
def Stmts.conditionsReturn (ct : CallTable) : Stmts → Prop
  | .nil => True
  | .cons head tail => head.conditionsReturn ct ∧ tail.conditionsReturn ct
end

/-- A check `c` leaves the binding environment and the registry as they were. -/
def KeepsEnv (c : SemState → Option SemState) : Prop :=
  ∀ s s', c s = some s' → s'.objectEnv = s.objectEnv ∧ s'.callTable = s.callTable

/-- A step `c` inside a scope changes at most the innermost scope: leaving the
scope afterwards gives the same environment as leaving it before. -/
def KeepsOuter (c : SemState → Option SemState) : Prop :=
  ∀ s s', c s = some s' →
    s'.objectEnv.exitscope = s.objectEnv.exitscope ∧ s'.callTable = s.callTable

/-- A step `c` returns whenever some scope is entered. -/
def ReturnsInScope (c : SemState → Option SemState) : Prop :=
  ∀ s, s.objectEnv ≠ [] → (c s).isSome

/-! ## Example programs with nested scopes -/

/-- The block `{ Int x; if (1 + "a") { if (y) {} else {} } else { while ... } }`. -/
def sampleBlock : StmtBlock :=
  .mk [declXInt]
    (.cons (.IfStmt (.Add (.Const_int "1") (.Const_string "a"))
        (.mk [declXFloat] (.cons (.IfStmt (.Object "y") emptyBlock emptyBlock) .nil))
        (.mk [] (.cons (.WhileStmt (.Const_bool true) emptyBlock) (.cons .BreakStmt .nil))))
      .nil)

/-- The declaration `Int g(Void v)` whose body is `sampleBlock`. -/
def declG : CallDecl :=
  { name := "g", paras := [⟨"v", Sym.Void⟩], returnType := Sym.Int, body := sampleBlock }

/-! ## Example programs for the statement checks -/

/-- The declaration `Void h() { return 1; }`. -/
def declReturn : CallDecl :=
  { name := "h", paras := [], returnType := Sym.Void,
    body := .mk [] (.cons (.ReturnStmt (.Const_int "1")) .nil) }

/-- The expression `(1 + "a") + 2`. -/
def exprCascade : Expr :=
  .Add (.Add (.Const_int "1") (.Const_string "a")) (.Const_int "2")

/-- The global declaration `Void v`. -/
def declVVoid : VariableDecl := ⟨⟨"v", Sym.Void⟩⟩

/-- A check `c` only appends to the error stream. -/
def AppendsErrors (c : SemState → Option SemState) : Prop :=
  ∀ s s', c s = some s' → ∃ ds : List Diag, s'.error_stream = s.error_stream ++ ds

/-- The statement `if (1 + "a") {} else {}`. -/
def ifBadCondition : Stmt :=
  .IfStmt (.Add (.Const_int "1") (.Const_string "a")) emptyBlock emptyBlock

/-- The statement `while (1) { if (y) {} else {} }`. -/
def whileBad : Stmt :=
  .WhileStmt (.Const_int "1")
    (.mk [] (.cons (.IfStmt (.Object "y") emptyBlock emptyBlock) .nil))

/-- The statement `for (; 1; ) { if (y) {} else {} }`. -/
def forBad : Stmt :=
  .ForStmt .No_expr (.Const_int "1") .No_expr
    (.mk [] (.cons (.IfStmt (.Object "y") emptyBlock emptyBlock) .nil))

/-! ## Vocabulary of the statements about locals and parameters -/

/-- The first declaration named `n` among the local declarations of a block. -/
def firstLocalDecl (n : Symbol) : List VariableDecl → Option VariableDecl
  | [] => none
  | v :: rest => if v.getName = n then some v else firstLocalDecl n rest

/-- The type of the last parameter named `n` whose type is not Void. -/
def lastParamType (n : Symbol) : List Variable → Option Symbol
  | [] => none
  | p :: rest =>
    match lastParamType n rest with
    | some t => some t
    | none => if p.name = n ∧ p.type ≠ Sym.Void then some p.type else none

/-- The parameters `x : Int, x : Float, x : Int`. -/
def paramsXXX : List Variable := [⟨"x", Sym.Int⟩, ⟨"x", Sym.Float⟩, ⟨"x", Sym.Int⟩]

/-- A state with `x` bound to Bool in the only scope. -/
def stateX : SemState :=
  { error_stream := [], objectEnv := [[("x", Sym.Bool)]], callTable := [] }

/-- The local declaration `Int y`. -/
def declYInt : VariableDecl := ⟨⟨"y", Sym.Int⟩⟩

/-- The statements `if (x == y) {} else {}  if (z) {} else {}`. -/
def blockStmtsX : Stmts :=
  .cons (.IfStmt (.Equ (.Object "x") (.Object "y")) emptyBlock emptyBlock)
    (.cons (.IfStmt (.Object "z") emptyBlock emptyBlock) .nil)

/-! ## Vocabulary of the statements about the driver -/

/-- The state in which `CallDecl_class::check` checks the body of the function:
the one reached after the return-type test, `enterscope` and the parameter
loop. -/
def CallDecl.bodyState (c : CallDecl) (s : SemState) : Option SemState :=
  checkParams c.name c.getVariables
    (if !isValidCallName c.getType then semant_error .returnTypePrint s else s).enterscope

/-- The state in which `check_calls` starts: after `install_calls`,
`check_main`, `enterscope` and `install_globalVars`. -/
def stateBeforeCalls (decls : List Decl) : Option SemState :=
  install_globalVars decls (check_main (install_calls decls SemState.initial)).enterscope

/-- The declaration `Void main() { if (later() == g) {} else {} }`. -/
def declMainForward : CallDecl :=
  { name := "main", paras := [], returnType := Sym.Void,
    body := .mk [] (.cons (.IfStmt (.Equ (.Call "later" .nil) (.Object "g"))
      emptyBlock emptyBlock) .nil) }

/-- The declaration `Bool later() { if (g) {} else {} }`. -/
def declLater : CallDecl :=
  { name := "later", paras := [], returnType := Sym.Bool,
    body := .mk [] (.cons (.IfStmt (.Object "g") emptyBlock emptyBlock) .nil) }

/-- The program `main`, `later`, `Bool g`: `main` uses a function and a global
that are declared after it. -/
def programForward : List Decl :=
  [.callDecl declMainForward, .callDecl declLater, .variableDecl ⟨⟨"g", Sym.Bool⟩⟩]

/-- The root of the expression is an arithmetic, modulo, negate, relational or
equality operator. -/
def Expr.isOperator : Expr → Bool
  | .Add _ _ => true
  | .Minus _ _ => true
  | .Multi _ _ => true
  | .Divide _ _ => true
  | .Mod _ _ => true
  | .Neg _ => true
  | .Lt _ _ => true
  | .Le _ _ => true
  | .Equ _ _ => true
  | .Neq _ _ => true
  | .Ge _ _ => true
  | .Gt _ _ => true
  | _ => false

/-- The expression `1 + 2`. -/
def exprOnePlusTwo : Expr := .Add (.Const_int "1") (.Const_int "2")

/-- A state with `x` bound to Int in the only scope. -/
def stateXInt : SemState :=
  { error_stream := [], objectEnv := [[("x", Sym.Int)]], callTable := [] }

/-- The actuals `("a", true && false)`; the check of the second has no
result. -/
def actualsAStub : Actuals :=
  .cons (.mk (.Const_string "a"))
    (.cons (.mk (.And (.Const_bool true) (.Const_bool false))) .nil)

/-! ## Vocabulary of the frame lemmas -/

/-- A checker `c` only appends to the error stream, and which messages it
appends (and what it returns) does not depend on the stream it starts from. -/
def Framed {α : Type} (c : SemState → Option (α × SemState)) : Prop :=
  ∀ (E : List Diag) (env : ObjectEnvironment) (ct : CallTable) (a : α) (s' : SemState),
    c ⟨E, env, ct⟩ = some (a, s') →
    ∃ ds : List Diag, s' = ⟨E ++ ds, env, ct⟩ ∧
      ∀ E' : List Diag, c ⟨E', env, ct⟩ = some (a, ⟨E' ++ ds, env, ct⟩)

/-- The loop over the arguments only appends to the error stream. -/
def FramedLoop (c : SemState → Option SemState) : Prop :=
  ∀ (E : List Diag) (env : ObjectEnvironment) (ct : CallTable) (s' : SemState),
    c ⟨E, env, ct⟩ = some s' →
    ∃ ds : List Diag, s' = ⟨E ++ ds, env, ct⟩ ∧
      ∀ E' : List Diag, c ⟨E', env, ct⟩ = some ⟨E' ++ ds, env, ct⟩


/-! ## Frame lemmas: expression checks only append diagnostics -/

theorem framed_of_eq {α : Type} {c c' : SemState → Option (α × SemState)}
    (h : ∀ s, c' s = c s) (hc : Framed c) : Framed c' := by
  have : c' = c := funext h
  rw [this]; exact hc

theorem framed_unary (rule : Symbol → SemState → Symbol × SemState)
    (hrule : ∀ t1 env ct, ∃ t ds, ∀ E, rule t1 ⟨E, env, ct⟩ = (t, ⟨E ++ ds, env, ct⟩))
    (c1 : SemState → Option (Symbol × SemState)) (h1 : Framed c1) :
    Framed (fun s =>
      match c1 s with
      | none => none
      | some (type1, s1) => some (rule type1 s1)) := by
  intro E env ct a s' h
  simp only at h
  cases hc1 : c1 ⟨E, env, ct⟩ with
  | none => simp [hc1] at h
  | some r1 =>
    obtain ⟨t1, s1⟩ := r1
    obtain ⟨d1, rfl, f1⟩ := h1 E env ct t1 s1 hc1
    simp only [hc1] at h
    obtain ⟨t, ds, hr⟩ := hrule t1 env ct
    rw [hr] at h
    simp only [Option.some.injEq, Prod.mk.injEq] at h
    obtain ⟨rfl, rfl⟩ := h
    refine ⟨d1 ++ ds, by simp [List.append_assoc], fun E' => ?_⟩
    simp only [f1 E', hr]
    simp [List.append_assoc]

theorem compareRule_eq (t1 t2 : Symbol) (env : ObjectEnvironment) (ct : CallTable) :
    ∃ t ds, ∀ E, compareRule t1 t2 ⟨E, env, ct⟩ = (t, ⟨E ++ ds, env, ct⟩) := by
  unfold compareRule
  split
  · exact ⟨Sym.Void, [.cannotCompare t1 t2], fun E => rfl⟩
  · exact ⟨Sym.Bool, [], fun E => by simp⟩

theorem equalityRule_eq (t1 t2 : Symbol) (env : ObjectEnvironment) (ct : CallTable) :
    ∃ t ds, ∀ E, equalityRule t1 t2 ⟨E, env, ct⟩ = (t, ⟨E ++ ds, env, ct⟩) := by
  unfold equalityRule
  split
  · exact ⟨Sym.Void, [.cannotCompare t1 t2], fun E => rfl⟩
  · exact ⟨Sym.Bool, [], fun E => by simp⟩

theorem modRule_eq (t1 t2 : Symbol) (env : ObjectEnvironment) (ct : CallTable) :
    ∃ t ds, ∀ E, modRule t1 t2 ⟨E, env, ct⟩ = (t, ⟨E ++ ds, env, ct⟩) := by
  unfold modRule
  split
  · exact ⟨Sym.Void, [.cannotMod t1 t2], fun E => rfl⟩
  · exact ⟨Sym.Bool, [], fun E => by simp⟩

theorem negRule_eq (t1 : Symbol) (env : ObjectEnvironment) (ct : CallTable) :
    ∃ t ds, ∀ E, negRule t1 ⟨E, env, ct⟩ = (t, ⟨E ++ ds, env, ct⟩) := by
  unfold negRule
  split
  · exact ⟨Sym.Void, [.noNegative t1], fun E => rfl⟩
  · exact ⟨Sym.Bool, [], fun E => by simp⟩

theorem framed_binary (rule : Symbol → Symbol → SemState → Symbol × SemState)
    (hrule : ∀ t1 t2 env ct, ∃ t ds, ∀ E, rule t1 t2 ⟨E, env, ct⟩ = (t, ⟨E ++ ds, env, ct⟩))
    (c1 c2 : SemState → Option (Symbol × SemState)) (h1 : Framed c1) (h2 : Framed c2) :
    Framed (fun s =>
      match c1 s with
      | none => none
      | some (type1, s1) =>
        match c2 s1 with
        | none => none
        | some (type2, s2) => some (rule type1 type2 s2)) := by
  intro E env ct a s' h
  simp only at h
  cases hc1 : c1 ⟨E, env, ct⟩ with
  | none => simp [hc1] at h
  | some r1 =>
    obtain ⟨t1, s1⟩ := r1
    obtain ⟨d1, rfl, f1⟩ := h1 E env ct t1 s1 hc1
    simp only [hc1] at h
    cases hc2 : c2 ⟨E ++ d1, env, ct⟩ with
    | none => simp [hc2] at h
    | some r2 =>
      obtain ⟨t2, s2⟩ := r2
      obtain ⟨d2, rfl, f2⟩ := h2 (E ++ d1) env ct t2 s2 hc2
      simp only [hc2] at h
      obtain ⟨t, ds, hr⟩ := hrule t1 t2 env ct
      rw [hr] at h
      simp only [Option.some.injEq, Prod.mk.injEq] at h
      obtain ⟨rfl, rfl⟩ := h
      refine ⟨d1 ++ d2 ++ ds, by simp [List.append_assoc], fun E' => ?_⟩
      simp only [f1 E', f2 (E' ++ d1), hr]
      simp [List.append_assoc]


theorem framed_none {α : Type} (c : SemState → Option (α × SemState)) (h : ∀ s, c s = none) :
    Framed c := by
  intro E env ct a s' h'
  simp [h] at h'

theorem framed_pure {α : Type} (c : SemState → Option (α × SemState)) (a : α)
    (h : ∀ s, c s = some (a, s)) : Framed c := by
  intro E env ct a' s' h'
  simp only [h, Option.some.injEq, Prod.mk.injEq] at h'
  obtain ⟨rfl, rfl⟩ := h'
  exact ⟨[], by simp, fun E' => by simp [h]⟩

theorem Expr.framed_Call (name : Symbol) (actuals : Actuals)
    (h1 : Framed actuals.checkFirst)
    (h2 : ∀ vs, FramedLoop (actuals.checkArguments name vs 0)) :
    Framed (Expr.Call name actuals).checkType := by
  intro E env ct a s' h
  simp only [Expr.checkType] at h
  cases hf : CallTable.find name ct with
  | none =>
    simp only [hf] at h
    by_cases hp : (name != Sym.print) = true
    · simp only [hp, if_true] at h
      cases hc : actuals.checkFirst ⟨E, env, ct⟩ with
      | none => simp [hc] at h
      | some r =>
        obtain ⟨t, s1⟩ := r
        obtain ⟨d1, rfl, f1⟩ := h1 E env ct t s1 hc
        simp only [hc] at h
        by_cases hs : (!sameType t Sym.String) = true
        · simp only [hs, if_true, Option.some.injEq, Prod.mk.injEq] at h
          obtain ⟨rfl, rfl⟩ := h
          refine ⟨d1 ++ [.printFirstString], by simp [semant_error], fun E' => ?_⟩
          simp [Expr.checkType, hf, hp, f1 E', hs, semant_error]
        · simp only [hs, Option.some.injEq, Prod.mk.injEq] at h
          obtain ⟨rfl, rfl⟩ := h
          refine ⟨d1, rfl, fun E' => ?_⟩
          simp [Expr.checkType, hf, hp, f1 E', hs]
    · simp only [hp, Option.some.injEq, Prod.mk.injEq] at h
      obtain ⟨rfl, rfl⟩ := h
      refine ⟨[.noname], by simp [semant_error], fun E' => ?_⟩
      simp [Expr.checkType, hf, hp, semant_error]
  | some decl =>
    simp only [hf] at h
    by_cases hl : (decl.getVariables.length != actuals.len) = true
    · simp only [hl, if_true, semant_error, hf, Option.some.injEq, Prod.mk.injEq] at h
      obtain ⟨rfl, rfl⟩ := h
      refine ⟨[.wrongArgumentCount name], rfl, fun E' => ?_⟩
      simp [Expr.checkType, hf, hl, semant_error]
    · simp only [hl] at h
      cases hc : actuals.checkArguments name decl.getVariables 0 ⟨E, env, ct⟩ with
      | none => simp [hc] at h
      | some s1 =>
        obtain ⟨ds, rfl, f1⟩ := h2 decl.getVariables E env ct s1 hc
        simp only [hc, hf, Option.some.injEq, Prod.mk.injEq] at h
        obtain ⟨rfl, rfl⟩ := h
        refine ⟨ds, rfl, fun E' => ?_⟩
        simp [Expr.checkType, hf, hl, f1 E']

theorem Expr.framed_Assign (lvalue : Symbol) (value : Expr) (h1 : Framed value.checkType) :
    Framed (Expr.Assign lvalue value).checkType := by
  intro E env ct a s' h
  simp only [Expr.checkType] at h
  cases hl : ObjectEnvironment.lookup lvalue env with
  | none =>
    simp only [hl, Option.some.injEq, Prod.mk.injEq] at h
    obtain ⟨rfl, rfl⟩ := h
    refine ⟨[.leftValueUndefined lvalue], rfl, fun E' => ?_⟩
    simp [Expr.checkType, hl, semant_error]
  | some expectedType =>
    simp only [hl] at h
    cases hc : value.checkType ⟨E, env, ct⟩ with
    | none => simp [hc] at h
    | some r =>
      obtain ⟨t, s1⟩ := r
      obtain ⟨d1, rfl, f1⟩ := h1 E env ct t s1 hc
      simp only [hc, hl] at h
      by_cases hs : (!sameType expectedType t) = true
      · simp only [hs, if_true, Option.some.injEq, Prod.mk.injEq] at h
        obtain ⟨rfl, rfl⟩ := h
        refine ⟨d1 ++ [.rightValueType expectedType t], by simp [semant_error], fun E' => ?_⟩
        simp [Expr.checkType, hl, f1 E', hs, semant_error]
      · simp only [hs, Option.some.injEq, Prod.mk.injEq] at h
        obtain ⟨rfl, rfl⟩ := h
        refine ⟨d1, rfl, fun E' => ?_⟩
        simp [Expr.checkType, hl, f1 E', hs]

theorem Expr.framed_Object (var : Symbol) : Framed (Expr.Object var).checkType := by
  intro E env ct a s' h
  simp only [Expr.checkType] at h
  cases hl : ObjectEnvironment.lookup var env with
  | none =>
    simp only [hl, Option.some.injEq, Prod.mk.injEq] at h
    obtain ⟨rfl, rfl⟩ := h
    refine ⟨[.objectUndefined var], rfl, fun E' => ?_⟩
    simp [Expr.checkType, hl, semant_error]
  | some type =>
    simp only [hl, Option.some.injEq, Prod.mk.injEq] at h
    obtain ⟨rfl, rfl⟩ := h
    exact ⟨[], by simp, fun E' => by simp [Expr.checkType, hl]⟩

theorem Actuals.framed_nil_params (as : Actuals) (name : Symbol) (i : Nat) :
    FramedLoop (as.checkArguments name [] i) := by
  intro E env ct s' h
  cases as <;>
  · simp only [Actuals.checkArguments, Option.some.injEq] at h
    subst h
    exact ⟨[], by simp, fun E' => by simp [Actuals.checkArguments]⟩

theorem Actuals.framed_nil (name : Symbol) (v : Variable) (vs : List Variable) (i : Nat) :
    FramedLoop (Actuals.nil.checkArguments name (v :: vs) i) := by
  intro E env ct s' h
  simp [Actuals.checkArguments] at h

theorem Actuals.framed_cons (actual : Actual) (rest : Actuals) (name : Symbol)
    (variable1 : Variable) (variables1 : List Variable) (i : Nat)
    (h1 : Framed actual.checkType)
    (h2 : FramedLoop (rest.checkArguments name variables1 (i + 1))) :
    FramedLoop ((Actuals.cons actual rest).checkArguments name (variable1 :: variables1) i) := by
  intro E env ct s' h
  simp only [Actuals.checkArguments] at h
  cases hc : actual.checkType ⟨E, env, ct⟩ with
  | none => simp [hc] at h
  | some r =>
    obtain ⟨t, s1⟩ := r
    obtain ⟨d1, rfl, f1⟩ := h1 E env ct t s1 hc
    simp only [hc] at h
    by_cases hs : (variable1.type != t) = true
    · simp only [hs, if_true, semant_error] at h
      obtain ⟨d2, rfl, f2⟩ := h2 _ env ct s' h
      refine ⟨d1 ++ [.argumentType name i variable1.type t] ++ d2,
        by simp [List.append_assoc], fun E' => ?_⟩
      simp only [Actuals.checkArguments, f1 E', hs, if_true, semant_error, f2]
      simp [List.append_assoc]
    · simp only [hs] at h
      obtain ⟨d2, rfl, f2⟩ := h2 _ env ct s' h
      refine ⟨d1 ++ d2, by simp [List.append_assoc], fun E' => ?_⟩
      simp only [Actuals.checkArguments, f1 E', hs, f2]
      simp [List.append_assoc]

mutual
theorem Expr.checkType_framed : ∀ e : Expr, Framed e.checkType
  | .Call name actuals =>
    Expr.framed_Call name actuals (Actuals.checkFirst_framed actuals)
      (fun vs => Actuals.checkArguments_framed actuals name vs 0)
  | .Assign lvalue value => Expr.framed_Assign lvalue value (Expr.checkType_framed value)
  | .Add e1 e2 =>
    framed_of_eq (fun _ => by simp only [Expr.checkType])
      (framed_binary compareRule compareRule_eq _ _ (Expr.checkType_framed e1) (Expr.checkType_framed e2))
  | .Minus e1 e2 =>
    framed_of_eq (fun _ => by simp only [Expr.checkType])
      (framed_binary compareRule compareRule_eq _ _ (Expr.checkType_framed e1) (Expr.checkType_framed e2))
  | .Multi e1 e2 =>
    framed_of_eq (fun _ => by simp only [Expr.checkType])
      (framed_binary compareRule compareRule_eq _ _ (Expr.checkType_framed e1) (Expr.checkType_framed e2))
  | .Divide e1 e2 =>
    framed_of_eq (fun _ => by simp only [Expr.checkType])
      (framed_binary compareRule compareRule_eq _ _ (Expr.checkType_framed e1) (Expr.checkType_framed e2))
  | .Mod e1 e2 =>
    framed_of_eq (fun _ => by simp only [Expr.checkType])
      (framed_binary modRule modRule_eq _ _ (Expr.checkType_framed e1) (Expr.checkType_framed e2))
  | .Lt e1 e2 =>
    framed_of_eq (fun _ => by simp only [Expr.checkType])
      (framed_binary compareRule compareRule_eq _ _ (Expr.checkType_framed e1) (Expr.checkType_framed e2))
  | .Le e1 e2 =>
    framed_of_eq (fun _ => by simp only [Expr.checkType])
      (framed_binary compareRule compareRule_eq _ _ (Expr.checkType_framed e1) (Expr.checkType_framed e2))
  | .Equ e1 e2 =>
    framed_of_eq (fun _ => by simp only [Expr.checkType])
      (framed_binary equalityRule equalityRule_eq _ _ (Expr.checkType_framed e1) (Expr.checkType_framed e2))
  | .Neq e1 e2 =>
    framed_of_eq (fun _ => by simp only [Expr.checkType])
      (framed_binary equalityRule equalityRule_eq _ _ (Expr.checkType_framed e1) (Expr.checkType_framed e2))
  | .Ge e1 e2 =>
    framed_of_eq (fun _ => by simp only [Expr.checkType])
      (framed_binary compareRule compareRule_eq _ _ (Expr.checkType_framed e1) (Expr.checkType_framed e2))
  | .Gt e1 e2 =>
    framed_of_eq (fun _ => by simp only [Expr.checkType])
      (framed_binary compareRule compareRule_eq _ _ (Expr.checkType_framed e1) (Expr.checkType_framed e2))
  | .Neg e1 =>
    framed_of_eq (fun _ => by simp only [Expr.checkType])
      (framed_unary negRule negRule_eq _ (Expr.checkType_framed e1))
  | .And _ _ => framed_none _ (fun _ => by simp only [Expr.checkType])
  | .Or _ _ => framed_none _ (fun _ => by simp only [Expr.checkType])
  | .Xor _ _ => framed_none _ (fun _ => by simp only [Expr.checkType])
  | .Not _ => framed_none _ (fun _ => by simp only [Expr.checkType])
  | .Bitand _ _ => framed_none _ (fun _ => by simp only [Expr.checkType])
  | .Bitor _ _ => framed_none _ (fun _ => by simp only [Expr.checkType])
  | .Bitnot _ => framed_none _ (fun _ => by simp only [Expr.checkType])
  | .Const_int _ => framed_pure _ Sym.Int (fun _ => by simp only [Expr.checkType])
  | .Const_string _ => framed_pure _ Sym.String (fun _ => by simp only [Expr.checkType])
  | .Const_float _ => framed_pure _ Sym.Float (fun _ => by simp only [Expr.checkType])
  | .Const_bool _ => framed_pure _ Sym.Bool (fun _ => by simp only [Expr.checkType])
  | .Object var => Expr.framed_Object var
  | .No_expr => framed_pure _ Sym.Void (fun _ => by simp only [Expr.checkType])
theorem Actual.actual_checkType_framed : ∀ a : Actual, Framed a.checkType
  | .mk expr => framed_of_eq (fun _ => by simp only [Actual.checkType]) (Expr.checkType_framed expr)
theorem Actuals.checkFirst_framed : ∀ as : Actuals, Framed as.checkFirst
  | .nil => framed_none _ (fun _ => by simp only [Actuals.checkFirst])
  | .cons first _ =>
    framed_of_eq (fun _ => by simp only [Actuals.checkFirst]) (Actual.actual_checkType_framed first)
theorem Actuals.checkArguments_framed :
    ∀ (as : Actuals) (name : Symbol) (vs : List Variable) (i : Nat),
      FramedLoop (as.checkArguments name vs i)
  | as, name, [], i => Actuals.framed_nil_params as name i
  | .nil, name, v :: vs, i => Actuals.framed_nil name v vs i
  | .cons actual rest, name, variable1 :: variables1, i =>
    Actuals.framed_cons actual rest name variable1 variables1 i
      (Actual.actual_checkType_framed actual)
      (Actuals.checkArguments_framed rest name variables1 (i + 1))
end

/-! ## The operator rules -/

@[simp] theorem semant_errors_semant_error (d : Diag) (s : SemState) :
    (semant_error d s).semant_errors = s.semant_errors + 1 := by
  simp [semant_error, SemState.semant_errors]

theorem compareRule_accept (t1 t2 : Symbol) (s : SemState)
    (h : (t1 = Sym.Int ∨ t1 = Sym.Float) ∧ (t2 = Sym.Int ∨ t2 = Sym.Float)) :
    compareRule t1 t2 s = (Sym.Bool, s) := by
  have h1 : (!sameType t1 Sym.Int && !sameType t1 Sym.Float) = false := by
    rcases h.1 with h | h <;> simp [sameType, h]
  have h2 : (!sameType t2 Sym.Int && !sameType t2 Sym.Float) = false := by
    rcases h.2 with h | h <;> simp [sameType, h]
  simp [compareRule, h1, h2]

theorem compareRule_reject (t1 t2 : Symbol) (s : SemState)
    (h : ¬((t1 = Sym.Int ∨ t1 = Sym.Float) ∧ (t2 = Sym.Int ∨ t2 = Sym.Float))) :
    compareRule t1 t2 s = (Sym.Void, semant_error (.cannotCompare t1 t2) s) := by
  have : ((!sameType t1 Sym.Int && !sameType t1 Sym.Float)
      || (!sameType t2 Sym.Int && !sameType t2 Sym.Float)) = true := by
    simp only [sameType, Bool.or_eq_true, Bool.and_eq_true, Bool.not_eq_true', beq_eq_false_iff_ne]
    by_contra hc
    apply h
    simp only [not_or, not_and_or, ne_eq, not_not] at hc
    exact hc
  simp [compareRule, this]

theorem equalityRule_accept (t1 t2 : Symbol) (s : SemState)
    (h : (t1 = Sym.Int ∨ t1 = Sym.Float ∨ t1 = Sym.Bool)
      ∧ (t2 = Sym.Int ∨ t2 = Sym.Float ∨ t2 = Sym.Bool)) :
    equalityRule t1 t2 s = (Sym.Bool, s) := by
  have h1 : (!sameType t1 Sym.Int && !sameType t1 Sym.Float && !sameType t1 Sym.Bool)
      = false := by
    rcases h.1 with h | h | h <;> simp [sameType, h]
  have h2 : (!sameType t2 Sym.Int && !sameType t2 Sym.Float && !sameType t2 Sym.Bool)
      = false := by
    rcases h.2 with h | h | h <;> simp [sameType, h]
  simp [equalityRule, h1, h2]

theorem equalityRule_reject (t1 t2 : Symbol) (s : SemState)
    (h : ¬((t1 = Sym.Int ∨ t1 = Sym.Float ∨ t1 = Sym.Bool)
      ∧ (t2 = Sym.Int ∨ t2 = Sym.Float ∨ t2 = Sym.Bool))) :
    equalityRule t1 t2 s = (Sym.Void, semant_error (.cannotCompare t1 t2) s) := by
  have : ((!sameType t1 Sym.Int && !sameType t1 Sym.Float && !sameType t1 Sym.Bool)
      || (!sameType t2 Sym.Int && !sameType t2 Sym.Float && !sameType t2 Sym.Bool))
      = true := by
    simp only [sameType, Bool.or_eq_true, Bool.and_eq_true, Bool.not_eq_true',
      beq_eq_false_iff_ne]
    by_contra hc
    apply h
    simp only [not_or, not_and_or, ne_eq, not_not] at hc
    tauto
  simp [equalityRule, this]

theorem void_ne_bool : Sym.Void ≠ Sym.Bool := by decide

/-! ## Operators, assignment and calls -/

/-- C1: for add, subtract, multiply and divide, once the operands are checked
with types `t1` and `t2`, the operator returns Bool and adds no diagnostic of
its own when both types are Int or Float (mixed accepted), and otherwise returns
Void and adds exactly one diagnostic of its own. -/
theorem C1_arithmetic_checkType (e1 e2 : Expr) (s s1 s2 : SemState) (t1 t2 : Symbol)
    (h1 : e1.checkType s = some (t1, s1)) (h2 : e2.checkType s1 = some (t2, s2)) :
    ∀ op ∈ [Expr.Add, Expr.Minus, Expr.Multi, Expr.Divide],
      ((t1 = Sym.Int ∨ t1 = Sym.Float) ∧ (t2 = Sym.Int ∨ t2 = Sym.Float) →
        (op e1 e2).checkType s = some (Sym.Bool, s2)) ∧
      (¬((t1 = Sym.Int ∨ t1 = Sym.Float) ∧ (t2 = Sym.Int ∨ t2 = Sym.Float)) →
        (op e1 e2).checkType s = some (Sym.Void, semant_error (.cannotCompare t1 t2) s2) ∧
        (semant_error (.cannotCompare t1 t2) s2).error_stream
          = s2.error_stream ++ [.cannotCompare t1 t2] ∧
        (semant_error (.cannotCompare t1 t2) s2).semant_errors = s2.semant_errors + 1) := by
  intro op hop
  simp only [List.mem_cons, List.mem_singleton, List.not_mem_nil, or_false] at hop
  rcases hop with rfl | rfl | rfl | rfl <;>
  · refine ⟨fun h => ?_, fun h => ⟨?_, rfl, semant_errors_semant_error _ _⟩⟩
    · simp only [Expr.checkType, h1, h2, compareRule_accept t1 t2 s2 h]
    · simp only [Expr.checkType, h1, h2, compareRule_reject t1 t2 s2 h]

/-- C1 on `1 + 2.0` (no diagnostic) and `1 + "a"` (exactly one diagnostic). -/
theorem C1_arithmetic_checkType_witness :
    (Expr.Const_int "1").checkType SemState.initial = some (Sym.Int, SemState.initial) ∧
    (Expr.Const_float "2.0").checkType SemState.initial
      = some (Sym.Float, SemState.initial) ∧
    (Expr.Const_string "a").checkType SemState.initial
      = some (Sym.String, SemState.initial) ∧
    (Expr.Add (.Const_int "1") (.Const_float "2.0")).checkType SemState.initial
      = some (Sym.Bool, SemState.initial) ∧
    (Expr.Add (.Const_int "1") (.Const_string "a")).checkType SemState.initial
      = some (Sym.Void, semant_error (.cannotCompare Sym.Int Sym.String) SemState.initial) ∧
    (semant_error (.cannotCompare Sym.Int Sym.String) SemState.initial).semant_errors = 1 :=
  ⟨rfl, rfl, rfl,
    (C1_arithmetic_checkType (.Const_int "1") (.Const_float "2.0") SemState.initial
      SemState.initial SemState.initial Sym.Int Sym.Float rfl rfl Expr.Add (by simp)).1
      (by decide),
    ((C1_arithmetic_checkType (.Const_int "1") (.Const_string "a") SemState.initial
      SemState.initial SemState.initial Sym.Int Sym.String rfl rfl Expr.Add (by simp)).2
      (by decide)).1,
    rfl⟩

/-- C2: once the operands are checked with types `t1` and `t2`, the relational
operators `<`, `<=`, `>`, `>=` return Bool with no diagnostic of their own iff
both types are Int or Float, the equality operators `==`, `!=` iff both types
are Int, Float or Bool, and in every other case the operator returns Void and
adds exactly one diagnostic of its own. -/
theorem C2_comparison_checkType (e1 e2 : Expr) (s s1 s2 : SemState) (t1 t2 : Symbol)
    (h1 : e1.checkType s = some (t1, s1)) (h2 : e2.checkType s1 = some (t2, s2)) :
    (∀ op ∈ [Expr.Lt, Expr.Le, Expr.Gt, Expr.Ge],
      ((op e1 e2).checkType s = some (Sym.Bool, s2) ↔
        (t1 = Sym.Int ∨ t1 = Sym.Float) ∧ (t2 = Sym.Int ∨ t2 = Sym.Float)) ∧
      (¬((t1 = Sym.Int ∨ t1 = Sym.Float) ∧ (t2 = Sym.Int ∨ t2 = Sym.Float)) →
        (op e1 e2).checkType s = some (Sym.Void, semant_error (.cannotCompare t1 t2) s2) ∧
        (semant_error (.cannotCompare t1 t2) s2).error_stream
          = s2.error_stream ++ [.cannotCompare t1 t2] ∧
        (semant_error (.cannotCompare t1 t2) s2).semant_errors = s2.semant_errors + 1)) ∧
    (∀ op ∈ [Expr.Equ, Expr.Neq],
      ((op e1 e2).checkType s = some (Sym.Bool, s2) ↔
        (t1 = Sym.Int ∨ t1 = Sym.Float ∨ t1 = Sym.Bool) ∧
        (t2 = Sym.Int ∨ t2 = Sym.Float ∨ t2 = Sym.Bool)) ∧
      (¬((t1 = Sym.Int ∨ t1 = Sym.Float ∨ t1 = Sym.Bool) ∧
          (t2 = Sym.Int ∨ t2 = Sym.Float ∨ t2 = Sym.Bool)) →
        (op e1 e2).checkType s = some (Sym.Void, semant_error (.cannotCompare t1 t2) s2) ∧
        (semant_error (.cannotCompare t1 t2) s2).error_stream
          = s2.error_stream ++ [.cannotCompare t1 t2] ∧
        (semant_error (.cannotCompare t1 t2) s2).semant_errors = s2.semant_errors + 1)) := by
  constructor
  · intro op hop
    simp only [List.mem_cons, List.mem_singleton, List.not_mem_nil, or_false] at hop
    rcases hop with rfl | rfl | rfl | rfl <;>
    · refine ⟨⟨fun h => ?_, fun h => ?_⟩, fun h => ⟨?_, rfl, semant_errors_semant_error _ _⟩⟩
      · by_contra hn
        simp only [Expr.checkType, h1, h2, compareRule_reject t1 t2 s2 hn, Option.some.injEq,
          Prod.mk.injEq] at h
        exact void_ne_bool h.1
      · simp only [Expr.checkType, h1, h2, compareRule_accept t1 t2 s2 h]
      · simp only [Expr.checkType, h1, h2, compareRule_reject t1 t2 s2 h]
  · intro op hop
    simp only [List.mem_cons, List.mem_singleton, List.not_mem_nil, or_false] at hop
    rcases hop with rfl | rfl <;>
    · refine ⟨⟨fun h => ?_, fun h => ?_⟩, fun h => ⟨?_, rfl, semant_errors_semant_error _ _⟩⟩
      · by_contra hn
        simp only [Expr.checkType, h1, h2, equalityRule_reject t1 t2 s2 hn, Option.some.injEq,
          Prod.mk.injEq] at h
        exact void_ne_bool h.1
      · simp only [Expr.checkType, h1, h2, equalityRule_accept t1 t2 s2 h]
      · simp only [Expr.checkType, h1, h2, equalityRule_reject t1 t2 s2 h]

/-- C2 on `1 == true` (accepted: Int against Bool) and `1 < true` (rejected with
exactly one diagnostic). -/
theorem C2_comparison_checkType_witness :
    (Expr.Const_int "1").checkType SemState.initial = some (Sym.Int, SemState.initial) ∧
    (Expr.Const_bool true).checkType SemState.initial = some (Sym.Bool, SemState.initial) ∧
    (Expr.Equ (.Const_int "1") (.Const_bool true)).checkType SemState.initial
      = some (Sym.Bool, SemState.initial) ∧
    (Expr.Lt (.Const_int "1") (.Const_bool true)).checkType SemState.initial
      = some (Sym.Void, semant_error (.cannotCompare Sym.Int Sym.Bool) SemState.initial) ∧
    (semant_error (.cannotCompare Sym.Int Sym.Bool) SemState.initial).semant_errors = 1 :=
  ⟨rfl, rfl,
    (((C2_comparison_checkType (.Const_int "1") (.Const_bool true) SemState.initial
      SemState.initial SemState.initial Sym.Int Sym.Bool rfl rfl).2 Expr.Equ (by simp)).1).2
      (by decide),
    (((C2_comparison_checkType (.Const_int "1") (.Const_bool true) SemState.initial
      SemState.initial SemState.initial Sym.Int Sym.Bool rfl rfl).1 Expr.Lt (by simp)).2
      (by decide)).1,
    rfl⟩

/-- An expression check leaves the binding environment and the call registry as
they were, and only extends the error stream. -/
theorem Expr.checkType_preserves (e : Expr) (s s' : SemState) (t : Symbol)
    (h : e.checkType s = some (t, s')) :
    s'.objectEnv = s.objectEnv ∧ s'.callTable = s.callTable ∧
      ∃ ds, s'.error_stream = s.error_stream ++ ds := by
  obtain ⟨E, env, ct⟩ := s
  obtain ⟨ds, rfl, -⟩ := Expr.checkType_framed e E env ct t s' h
  exact ⟨rfl, rfl, ds, rfl⟩

/-- C3: an assignment to a name bound in no scope emits exactly one diagnostic,
returns Void and does not check the right-hand side; an assignment to a name
whose innermost binding is `T` returns `T` and emits the diagnostics of the
right-hand side plus exactly one type-mismatch diagnostic iff the type of the
right-hand side differs from `T`. -/
theorem C3_assign_checkType (x : Symbol) (e : Expr) (s : SemState) :
    (s.objectEnv.lookup x = none →
      (Expr.Assign x e).checkType s = some (Sym.Void, semant_error (.leftValueUndefined x) s) ∧
      (semant_error (.leftValueUndefined x) s).error_stream
        = s.error_stream ++ [.leftValueUndefined x]) ∧
    (∀ (T t : Symbol) (s1 : SemState),
      s.objectEnv.lookup x = some T → e.checkType s = some (t, s1) →
      (Expr.Assign x e).checkType s
        = some (T, if t = T then s1 else semant_error (.rightValueType T t) s1) ∧
      (semant_error (.rightValueType T t) s1).error_stream
        = s1.error_stream ++ [.rightValueType T t]) := by
  refine ⟨fun h => ⟨?_, rfl⟩, fun T t s1 hl hc => ⟨?_, rfl⟩⟩
  · simp only [Expr.checkType, h]
  · have hp := (Expr.checkType_preserves e s s1 t hc).1
    simp only [Expr.checkType, hl, hc, hp, sameType]
    by_cases hT : t = T
    · subst hT; simp
    · have : (T == t) = false := by
        simp only [beq_eq_false_iff_ne, ne_eq]
        exact fun h => hT h.symm
      simp [this, hT]

/-- C3 on `x = true` with `x` bound to Int (exactly one diagnostic, the type
mismatch) and on `y = (1 + "a")` with `y` unbound (exactly one diagnostic, and
none from the right-hand side). -/
theorem C3_assign_checkType_witness :
    ((Expr.Assign "x" (.Const_bool true)).checkType
        { error_stream := [], objectEnv := [[], [("x", Sym.Int)]], callTable := [] }).map
      (fun r => (r.1, r.2.error_stream))
      = some (Sym.Int, [.rightValueType Sym.Int Sym.Bool]) ∧
    ((Expr.Assign "y" (.Add (.Const_int "1") (.Const_string "a"))).checkType
        { error_stream := [], objectEnv := [[], [("x", Sym.Int)]], callTable := [] }).map
      (fun r => (r.1, r.2.error_stream))
      = some (Sym.Void, [.leftValueUndefined "y"]) := by
  constructor
  · rw [((C3_assign_checkType "x" (.Const_bool true)
      { error_stream := [], objectEnv := [[], [("x", Sym.Int)]], callTable := [] }).2
      Sym.Int Sym.Bool _ rfl rfl).1]
    decide
  · rw [((C3_assign_checkType "y" (.Add (.Const_int "1") (.Const_string "a"))
      { error_stream := [], objectEnv := [[], [("x", Sym.Int)]], callTable := [] }).1 rfl).1]
    decide

/-- C4: a call of a registered function with the wrong number of arguments emits
exactly one diagnostic, checks no argument, and returns the declared return
type of the function. -/
theorem C4_call_wrong_argument_count (name : Symbol) (actuals : Actuals) (decl : CallDecl)
    (s : SemState) (hf : s.callTable.find name = some decl)
    (hl : decl.paras.length ≠ actuals.len) :
    (Expr.Call name actuals).checkType s
      = some (decl.returnType, semant_error (.wrongArgumentCount name) s) ∧
    (semant_error (.wrongArgumentCount name) s).error_stream
      = s.error_stream ++ [.wrongArgumentCount name] ∧
    (semant_error (.wrongArgumentCount name) s).semant_errors = s.semant_errors + 1 := by
  refine ⟨?_, rfl, semant_errors_semant_error _ _⟩
  have hl' : (decl.getVariables.length != actuals.len) = true := by
    simpa [CallDecl.getVariables] using hl
  have hf' : CallTable.find name (semant_error (.wrongArgumentCount name) s).callTable
      = some decl := hf
  simp only [Expr.checkType, hf, hl', if_true, hf', CallDecl.getType]

/-- C4 on the two-parameter function `f` called as `f(1, 2, 3)`: exactly one
diagnostic, and the call still has the declared return type Float. -/
theorem C4_call_wrong_argument_count_witness :
    stateF.callTable.find "f" = some declF ∧ declF.paras.length ≠ actuals123.len ∧
    ((Expr.Call "f" actuals123).checkType stateF).map (fun r => (r.1, r.2.error_stream))
      = some (Sym.Float, [.wrongArgumentCount "f"]) := by
  refine ⟨rfl, by decide, ?_⟩
  rw [(C4_call_wrong_argument_count "f" actuals123 declF stateF rfl (by decide)).1]
  decide

theorem Actuals.checkArguments_trace (name : Symbol) (E0 : List Diag)
    (env : ObjectEnvironment) (ct : CallTable) :
    ∀ (as : Actuals) (vs : List Variable) (i : Nat) (E : List Diag),
      vs.length = as.len →
      (∀ a ∈ as.toList, (a.checkType ⟨E0, env, ct⟩).isSome) →
      as.checkArguments name vs i ⟨E, env, ct⟩
        = some ⟨E ++ argumentTrace name ⟨E0, env, ct⟩ vs as.toList i, env, ct⟩
  | .nil, [], i, E, _, _ => by
    simp [Actuals.checkArguments, Actuals.toList, argumentTrace]
  | .nil, _ :: _, i, E, hl, _ => by simp [Actuals.len] at hl
  | .cons _ _, [], i, E, hl, _ => by simp [Actuals.len] at hl
  | .cons a rest, v :: vs, i, E, hl, hret => by
    have hl' : vs.length = rest.len := by simpa [Actuals.len] using hl
    have hret' : ∀ b ∈ rest.toList, (b.checkType ⟨E0, env, ct⟩).isSome :=
      fun b hb => hret b (by simp [Actuals.toList, hb])
    have ha : (a.checkType ⟨E0, env, ct⟩).isSome := hret a (by simp [Actuals.toList])
    obtain ⟨⟨t, s1⟩, hc⟩ := Option.isSome_iff_exists.mp ha
    obtain ⟨ds, rfl, f⟩ := Actual.actual_checkType_framed a E0 env ct t s1 hc
    have hd : a.diagnosticsIn ⟨E0, env, ct⟩ = ds := by
      simp [Actual.diagnosticsIn, hc]
    have ht : a.typeIn ⟨E0, env, ct⟩ = some t := by simp [Actual.typeIn, hc]
    by_cases hs : t = v.type
    · subst hs
      have hs' : (v.type != v.type) = false := by simp
      simp only [Actuals.checkArguments, f E, hs', Bool.false_eq_true, if_false,
        Actuals.checkArguments_trace name E0 env ct rest _ (i + 1) _ hl' hret',
        Actuals.toList, argumentTrace, hd, ht, if_true, List.append_nil,
        List.append_assoc]
    · have hs' : (v.type != t) = true := by
        simp only [bne_iff_ne, ne_eq]; exact fun h => hs h.symm
      simp only [Actuals.checkArguments, f E, hs', if_true, semant_error,
        Actuals.checkArguments_trace name E0 env ct rest vs (i + 1) _ hl' hret',
        Actuals.toList, argumentTrace, hd, ht, hs, if_false, List.append_assoc]

theorem argumentTrace_length (name : Symbol) (s : SemState) :
    ∀ (as : List Actual) (vs : List Variable) (i : Nat),
      vs.length = as.length → (∀ a ∈ as, (a.checkType s).isSome) →
      (argumentTrace name s vs as i).length
        = (as.map (fun a => (a.diagnosticsIn s).length)).sum + mismatches s vs as := by
  intro as
  induction as with
  | nil => intro vs i _ _; cases vs <;> simp [argumentTrace, mismatches]
  | cons a as ih =>
    intro vs i hl hret
    cases vs with
    | nil => simp at hl
    | cons v vs =>
      have ha : (a.checkType s).isSome := hret a (by simp)
      obtain ⟨⟨t, s1⟩, hc⟩ := Option.isSome_iff_exists.mp ha
      have ht : a.typeIn s = some t := by simp [Actual.typeIn, hc]
      have := ih vs (i + 1) (by simpa using hl) (fun b hb => hret b (by simp [hb]))
      simp only [argumentTrace, mismatches, ht, List.length_append, this, List.map_cons,
        List.sum_cons, Option.some.injEq]
      by_cases hs : t = v.type
      · simp [hs]; omega
      · simp [hs]; omega

theorem Actuals.length_toList : ∀ as : Actuals, as.toList.length = as.len
  | .nil => rfl
  | .cons _ tail => by simp [Actuals.toList, Actuals.len, Actuals.length_toList tail]

/-- C5: a call of a registered function with as many actuals as parameters
returns the declared return type and checks each actual once in positional
order; the diagnostics it adds beyond those of the arguments are one per
position whose checked type differs from the declared parameter type. -/
theorem C5_call_argument_types (name : Symbol) (actuals : Actuals) (decl : CallDecl)
    (s : SemState) (hf : s.callTable.find name = some decl)
    (hl : decl.paras.length = actuals.len)
    (hret : ∀ a ∈ actuals.toList, (a.checkType s).isSome) :
    ∃ s', (Expr.Call name actuals).checkType s = some (decl.returnType, s') ∧
      s'.objectEnv = s.objectEnv ∧ s'.callTable = s.callTable ∧
      s'.error_stream = s.error_stream ++ argumentTrace name s decl.paras actuals.toList 0 ∧
      s'.semant_errors = s.semant_errors
        + (actuals.toList.map (fun a => (a.diagnosticsIn s).length)).sum
        + mismatches s decl.paras actuals.toList := by
  obtain ⟨E, env, ct⟩ := s
  have hl' : (decl.paras.length != actuals.len) = false := by
    simpa using hl
  have hf' : CallTable.find name ct = some decl := hf
  refine ⟨⟨E ++ argumentTrace name ⟨E, env, ct⟩ decl.paras actuals.toList 0, env, ct⟩,
    ?_, rfl, rfl, rfl, ?_⟩
  · simp only [Expr.checkType, hf', hl', Bool.false_eq_true, if_false, CallDecl.getVariables,
      Actuals.checkArguments_trace name E env ct actuals decl.paras 0 E hl hret,
      CallDecl.getType]
  · simp only [SemState.semant_errors, List.length_append,
      argumentTrace_length name ⟨E, env, ct⟩ actuals.toList decl.paras 0
        (by rw [Actuals.length_toList]; exact hl) hret]
    omega

/-- C5 on `f(1 + "a", 2.0)` for `Float f(Int a, Int b)`: the first actual adds
one diagnostic of its own, both positions mismatch, and the call has type
Float. -/
theorem C5_call_argument_types_witness :
    stateF.callTable.find "f" = some declF ∧ declF.paras.length = actualsBad.len ∧
    (∀ a ∈ actualsBad.toList, (a.checkType stateF).isSome) ∧
    ∃ s', (Expr.Call "f" actualsBad).checkType stateF = some (Sym.Float, s') ∧
      s'.error_stream = [.cannotCompare Sym.Int Sym.String,
        .argumentType "f" 0 Sym.Int Sym.Void, .argumentType "f" 1 Sym.Int Sym.Float] ∧
      s'.semant_errors = stateF.semant_errors + 1 + 2 := by
  have hret : ∀ a ∈ actualsBad.toList, (a.checkType stateF).isSome := by
    intro a ha
    simp only [actualsBad, Actuals.toList, List.mem_cons, List.mem_singleton,
      List.not_mem_nil, or_false] at ha
    rcases ha with rfl | rfl <;> rfl
  obtain ⟨s', h1, _, _, h2, h3⟩ :=
    C5_call_argument_types "f" actualsBad declF stateF rfl rfl hret
  refine ⟨rfl, rfl, hret, s', h1, ?_, ?_⟩
  · rw [h2]; decide
  · rw [h3]; decide

/-- C6: the call `printf("a")` is given the diagnostic `noname` although its
first actual is a String, and so is `printf(42)`; the first actual is not
examined for the reserved name. -/
theorem C6_print_call_always_flagged :
    ((Expr.Call Sym.print actualsA).checkType SemState.initial).map
        (fun r => (r.1, r.2.error_stream)) = some (Sym.Void, [.noname]) ∧
    ((Expr.Call Sym.print actuals42).checkType SemState.initial).map
        (fun r => (r.1, r.2.error_stream)) = some (Sym.Void, [.noname]) := by
  constructor <;> decide

/-! ## The registry after `install_calls` -/

theorem lookup_cons_ite {β : Type} (n k : Symbol) (b : β) (rest : List (Symbol × β)) :
    List.lookup n ((k, b) :: rest) = if n = k then some b else List.lookup n rest := by
  by_cases h : n = k
  · subst h; simp [List.lookup]
  · have : (n == k) = false := by simp [h]
    simp [List.lookup, this, h]

theorem CallTable.find_set (n k : Symbol) (c : CallDecl) (t : CallTable) :
    CallTable.find n (CallTable.set k c t) = if n = k then some c else CallTable.find n t := by
  induction t with
  | nil =>
    simp [CallTable.find, CallTable.set, lookup_cons_ite]
  | cons e rest ih =>
    obtain ⟨k', c'⟩ := e
    simp only [CallTable.find] at ih
    by_cases hk : k' = k
    · subst hk
      by_cases hn : n = k' <;> simp [CallTable.find, CallTable.set, lookup_cons_ite, hn]
    · by_cases hn : n = k
      · subst hn
        have hne : ¬ n = k' := fun h => hk h.symm
        simp [CallTable.find, CallTable.set, lookup_cons_ite, hk, hne, ih]
      · by_cases hn' : n = k' <;>
          simp [CallTable.find, CallTable.set, lookup_cons_ite, hk, hn, hn', ih]

theorem firstCallDecl_append (n : Symbol) (pre : List Decl) (d : Decl) :
    firstCallDecl n (pre ++ [d])
      = match firstCallDecl n pre with
        | some c => some c
        | none => firstCallDecl n [d] := by
  induction pre with
  | nil => simp only [List.nil_append, firstCallDecl]
  | cons e rest ih =>
    cases e with
    | callDecl c =>
      by_cases h : c.name = n <;> simp [firstCallDecl, h, ih]
    | variableDecl v => simp [firstCallDecl, ih]

theorem firstCallDecl_isSome (n : Symbol) (decls : List Decl) :
    (firstCallDecl n decls).isSome ↔ ∃ c, Decl.callDecl c ∈ decls ∧ c.name = n := by
  induction decls with
  | nil => simp [firstCallDecl]
  | cons e rest ih =>
    cases e with
    | callDecl c =>
      by_cases h : c.name = n
      · simp only [firstCallDecl, h, if_true, Option.isSome_some, true_iff]
        exact ⟨c, by simp, h⟩
      · simp only [firstCallDecl, h, if_false, ih, List.mem_cons, Decl.callDecl.injEq]
        constructor
        · rintro ⟨c', hc', hn⟩; exact ⟨c', Or.inr hc', hn⟩
        · rintro ⟨c', hc' | hc', hn⟩
          · subst hc'; exact absurd hn h
          · exact ⟨c', hc', hn⟩
    | variableDecl v =>
      simp only [firstCallDecl, ih, List.mem_cons]
      constructor
      · rintro ⟨c', hc', hn⟩; exact ⟨c', Or.inr hc', hn⟩
      · rintro ⟨c', hc' | hc', hn⟩
        · cases hc'
        · exact ⟨c', hc', hn⟩

theorem install_calls_append (pre post : List Decl) (s : SemState) :
    install_calls (pre ++ post) s = install_calls post (install_calls pre s) := by
  simp [install_calls, List.foldl_append]

theorem install_calls_singleton (d : Decl) (s : SemState) :
    install_calls [d] s = install_call d s := rfl

/-- The registry after `install_calls` on an empty registry maps every name
other than `printf` to the first function declaration of that name, and has no
entry for `printf`. -/
theorem install_calls_find (decls : List Decl) (s : SemState) (h0 : s.callTable = []) :
    ∀ n, (install_calls decls s).callTable.find n
      = if n = Sym.print then none else firstCallDecl n decls := by
  induction decls using List.reverseRecOn with
  | nil =>
    intro n
    simp [install_calls, h0, CallTable.find, firstCallDecl]
  | append_singleton pre d ih =>
    intro n
    rw [install_calls_append, install_calls_singleton, firstCallDecl_append]
    cases d with
    | variableDecl v =>
      simp only [install_call, ih n, firstCallDecl]
      by_cases hn : n = Sym.print
      · simp [hn]
      · cases firstCallDecl n pre <;> simp [hn]
    | callDecl c =>
      simp only [install_call]
      by_cases hp : c.name = "printf"
      · have hp' : (c.name == "printf") = true := by simp [hp]
        simp only [hp', if_true, semant_error, ih n, firstCallDecl]
        by_cases hn : n = Sym.print
        · simp [hn]
        · have : ¬ c.name = n := fun h => hn (by rw [← h, hp]; rfl)
          cases firstCallDecl n pre <;> simp [hn, this]
      · have hp' : (c.name == "printf") = false := by simp [hp]
        simp only [hp', Bool.false_eq_true, if_false]
        have hc := ih c.name
        have hcp : ¬ c.name = Sym.print := hp
        simp only [hcp, if_false] at hc
        cases hfc : firstCallDecl c.name pre with
        | some c' =>
          rw [hfc] at hc
          simp only [hc, Option.isSome_some, if_true, semant_error, ih n, firstCallDecl]
          by_cases hn : n = Sym.print
          · simp [hn]
          · by_cases hcn : c.name = n
            · subst hcn; simp [hn, hfc]
            · cases firstCallDecl n pre <;> simp [hn, hcn]
        | none =>
          rw [hfc] at hc
          simp only [hc, Option.isSome_none, Bool.false_eq_true, if_false,
            CallTable.find_set, ih n, firstCallDecl]
          by_cases hn : n = Sym.print
          · have : ¬ Sym.print = c.name := fun h => hcp h.symm
            simp [hn, this]
          · by_cases hcn : n = c.name
            · subst hcn; simp [hn, hfc]
            · have hcn' : ¬ c.name = n := fun h => hcn h.symm
              cases firstCallDecl n pre <;> simp [hn, hcn, hcn']

/-- C7: after `install_calls` on an empty registry, the reserved name `printf`
is not a key; the keys are exactly the names, other than `printf`, of the
function declarations; each key maps to the first function declaration of that
name; and a function declaration is given a diagnostic iff it is named `printf`
or a function of the same name was installed before it. -/
theorem C7_install_calls (decls : List Decl) (s : SemState) (h0 : s.callTable = []) :
    (install_calls decls s).callTable.find Sym.print = none ∧
    (∀ n, ((install_calls decls s).callTable.find n).isSome ↔
      (n ≠ Sym.print ∧ ∃ c, Decl.callDecl c ∈ decls ∧ c.name = n)) ∧
    (∀ n, n ≠ Sym.print →
      (install_calls decls s).callTable.find n = firstCallDecl n decls) ∧
    (∀ pre c post, decls = pre ++ Decl.callDecl c :: post →
      install_calls decls s = install_calls post (install_calls (pre ++ [.callDecl c]) s) ∧
      ∃ ds, (install_calls (pre ++ [.callDecl c]) s).error_stream
          = (install_calls pre s).error_stream ++ ds ∧
        (ds ≠ [] ↔
          (c.name = Sym.print ∨ ((install_calls pre s).callTable.find c.name).isSome)) ∧
        (((install_calls pre s).callTable.find c.name).isSome ↔
          (c.name ≠ Sym.print ∧ ∃ c', Decl.callDecl c' ∈ pre ∧ c'.name = c.name))) := by
  have hfind := install_calls_find decls s h0
  have hkeys : ∀ (l : List Decl) (n : Symbol), ((install_calls l s).callTable.find n).isSome ↔
      (n ≠ Sym.print ∧ ∃ c, Decl.callDecl c ∈ l ∧ c.name = n) := by
    intro l n
    rw [install_calls_find l s h0 n]
    by_cases hn : n = Sym.print
    · simp [hn]
    · simp [hn, firstCallDecl_isSome]
  refine ⟨by simp [hfind], hkeys decls, fun n hn => by simp [hfind, hn], ?_⟩
  intro pre c post hd
  refine ⟨?_, ?_⟩
  · rw [hd, ← install_calls_append]; simp
  · rw [install_calls_append, install_calls_singleton]
    simp only [install_call]
    by_cases hp : c.name = "printf"
    · have hp' : (c.name == "printf") = true := by simp [hp]
      refine ⟨[.printfRedefinition, .printfName], ?_, ?_, hkeys pre c.name⟩
      · simp [hp', semant_error]
      · have : c.name = Sym.print := hp
        simp [this]
    · have hp' : (c.name == "printf") = false := by simp [hp]
      have hcp : ¬ c.name = Sym.print := hp
      cases hf : CallTable.find c.name (install_calls pre s).callTable with
      | some c' =>
        refine ⟨[.functionPreviouslyDefined c.name], ?_, ?_, ?_⟩
        · simp [hp', hf, semant_error]
        · simp
        · rw [← hf]; exact hkeys pre c.name
      | none =>
        refine ⟨[], ?_, ?_, ?_⟩
        · simp [hp', hf]
        · simp [hcp]
        · rw [← hf]; exact hkeys pre c.name

/-- C7 on the list `printf`, `f`, `Int x`, `f`, `Float x`: `printf` is not
installed, `f` maps to its first declaration, and the second `f` is flagged. -/
theorem C7_install_calls_witness :
    SemState.initial.callTable = [] ∧
    (install_calls sampleDecls SemState.initial).callTable.find Sym.print = none ∧
    ((install_calls sampleDecls SemState.initial).callTable.find "f").map CallDecl.getType
      = some Sym.Float ∧
    (install_calls sampleDecls SemState.initial).error_stream
      = [.printfRedefinition, .printfName, .functionPreviouslyDefined "f"] := by
  refine ⟨rfl, (C7_install_calls sampleDecls SemState.initial rfl).1, ?_, by decide⟩
  rw [(C7_install_calls sampleDecls SemState.initial rfl).2.2.1 "f" (by decide)]
  decide

/-! ## The outermost scope after `install_globalVars` -/

theorem ObjectEnvironment.lookup_single (n : Symbol) (scope : Scope) :
    ObjectEnvironment.lookup n [scope] = List.lookup n scope := by
  simp only [ObjectEnvironment.lookup]
  cases List.lookup n scope <;> rfl

theorem firstVariableDecl_append (n : Symbol) (pre : List Decl) (d : Decl) :
    firstVariableDecl n (pre ++ [d])
      = match firstVariableDecl n pre with
        | some v => some v
        | none => firstVariableDecl n [d] := by
  induction pre with
  | nil => simp only [List.nil_append, firstVariableDecl]
  | cons e rest ih =>
    cases e with
    | callDecl c => simp [firstVariableDecl, ih]
    | variableDecl v =>
      by_cases h : v.getName = n <;> simp [firstVariableDecl, h, ih]

theorem firstVariableDecl_isSome (n : Symbol) (decls : List Decl) :
    (firstVariableDecl n decls).isSome ↔ ∃ v, Decl.variableDecl v ∈ decls ∧ v.getName = n := by
  induction decls with
  | nil => simp [firstVariableDecl]
  | cons e rest ih =>
    cases e with
    | callDecl c =>
      simp only [firstVariableDecl, ih, List.mem_cons]
      constructor
      · rintro ⟨v', hv', hn⟩; exact ⟨v', Or.inr hv', hn⟩
      · rintro ⟨v', hv' | hv', hn⟩
        · cases hv'
        · exact ⟨v', hv', hn⟩
    | variableDecl v =>
      by_cases h : v.getName = n
      · simp only [firstVariableDecl, h, if_true, Option.isSome_some, true_iff]
        exact ⟨v, by simp, h⟩
      · simp only [firstVariableDecl, h, if_false, ih, List.mem_cons, Decl.variableDecl.injEq]
        constructor
        · rintro ⟨v', hv', hn⟩; exact ⟨v', Or.inr hv', hn⟩
        · rintro ⟨v', hv' | hv', hn⟩
          · subst hv'; exact absurd hn h
          · exact ⟨v', hv', hn⟩

theorem install_globalVars_append (pre post : List Decl) (s : SemState) :
    install_globalVars (pre ++ post) s
      = (install_globalVars pre s).bind (install_globalVars post) := by
  induction pre generalizing s with
  | nil => simp [install_globalVars]
  | cons d rest ih =>
    simp only [List.cons_append, install_globalVars]
    cases install_globalVar d s with
    | none => simp
    | some s1 => simp [ih]

theorem install_globalVars_singleton (d : Decl) (s : SemState) :
    install_globalVars [d] s = install_globalVar d s := by
  simp only [install_globalVars]
  cases install_globalVar d s <;> rfl

/-- Run in one empty outermost scope, `install_globalVars` returns, keeps a
single scope, and binds every name to the type of its first declaration. -/
theorem install_globalVars_scope (decls : List Decl) (s : SemState)
    (h0 : s.objectEnv = ObjectEnvironment.enterscope []) :
    ∃ s' scope, install_globalVars decls s = some s' ∧ s'.objectEnv = [scope] ∧
      s'.callTable = s.callTable ∧
      ∀ n, List.lookup n scope = (firstVariableDecl n decls).map VariableDecl.getType := by
  induction decls using List.reverseRecOn with
  | nil =>
    exact ⟨s, [], by simp [install_globalVars], h0, rfl, by simp [firstVariableDecl]⟩
  | append_singleton pre d ih =>
    obtain ⟨s1, scope, h1, henv, hct, hl⟩ := ih
    rw [install_globalVars_append, h1, Option.some_bind, install_globalVars_singleton]
    cases d with
    | callDecl c =>
      refine ⟨s1, scope, by simp [install_globalVar], henv, hct, fun n => ?_⟩
      rw [firstVariableDecl_append, hl n]
      cases firstVariableDecl n pre <;> simp [firstVariableDecl]
    | variableDecl v =>
      simp only [install_globalVar, henv, ObjectEnvironment.lookup_single, hl v.getName]
      cases hf : firstVariableDecl v.getName pre with
      | some v' =>
        refine ⟨semant_error (.varPreviouslyDefined v.getName) s1, scope, by simp, henv, hct,
          fun n => ?_⟩
        rw [firstVariableDecl_append, hl n]
        by_cases hn : v.getName = n
        · subst hn; simp [hf]
        · cases firstVariableDecl n pre <;> simp [firstVariableDecl, hn]
      | none =>
        refine ⟨{ s1 with objectEnv := [(v.getName, v.getType) :: scope] }, _,
          by simp [SemState.addid, henv, ObjectEnvironment.addid], rfl, hct, fun n => ?_⟩
        rw [firstVariableDecl_append, lookup_cons_ite, hl n]
        by_cases hn : n = v.getName
        · subst hn; simp [hf, firstVariableDecl]
        · have hn' : ¬ v.getName = n := fun h => hn h.symm
          cases firstVariableDecl n pre <;> simp [firstVariableDecl, hn, hn']

/-- C8: run in a freshly entered, empty outermost scope, `install_globalVars`
binds each global variable name to the type of its first declaration, and
gives exactly one `previously defined` diagnostic to each later declaration of
a name that is already bound, without binding it again. -/
theorem C8_install_globalVars (decls : List Decl) (s : SemState)
    (h0 : s.objectEnv = ObjectEnvironment.enterscope []) :
    ∃ s', install_globalVars decls s = some s' ∧
      (∀ n, s'.objectEnv.lookup n
        = (firstVariableDecl n decls).map VariableDecl.getType) ∧
      (∀ pre v post, decls = pre ++ Decl.variableDecl v :: post →
        ∃ s1 s2, install_globalVars pre s = some s1 ∧
          install_globalVars (pre ++ [.variableDecl v]) s = some s2 ∧
          install_globalVars decls s = install_globalVars post s2 ∧
          ((s1.objectEnv.lookup v.getName).isSome ↔
            ∃ v', Decl.variableDecl v' ∈ pre ∧ v'.getName = v.getName) ∧
          ((s1.objectEnv.lookup v.getName).isSome →
            s2 = semant_error (.varPreviouslyDefined v.getName) s1 ∧
            s2.error_stream = s1.error_stream ++ [.varPreviouslyDefined v.getName] ∧
            s2.objectEnv = s1.objectEnv) ∧
          (s1.objectEnv.lookup v.getName = none →
            s2.error_stream = s1.error_stream ∧
            s2.objectEnv.lookup v.getName = some v.getType)) := by
  obtain ⟨s', scope, hs', henv, -, hl⟩ := install_globalVars_scope decls s h0
  refine ⟨s', hs', fun n => by rw [henv, ObjectEnvironment.lookup_single, hl n], ?_⟩
  intro pre v post hd
  obtain ⟨s1, scope1, h1, henv1, -, hl1⟩ := install_globalVars_scope pre s h0
  have hstep : install_globalVars (pre ++ [.variableDecl v]) s
      = install_globalVar (.variableDecl v) s1 := by
    rw [install_globalVars_append, h1, Option.some_bind, install_globalVars_singleton]
  have hrest : ∀ s2, install_globalVars (pre ++ [.variableDecl v]) s = some s2 →
      install_globalVars decls s = install_globalVars post s2 := by
    intro s2 h2
    have : decls = (pre ++ [.variableDecl v]) ++ post := by simp [hd]
    rw [this, install_globalVars_append, h2, Option.some_bind]
  have hbound : (s1.objectEnv.lookup v.getName).isSome ↔
      ∃ v', Decl.variableDecl v' ∈ pre ∧ v'.getName = v.getName := by
    rw [henv1, ObjectEnvironment.lookup_single, hl1, ← firstVariableDecl_isSome]
    cases firstVariableDecl v.getName pre <;> simp
  cases hlk : s1.objectEnv.lookup v.getName with
  | some t =>
    have h2 : install_globalVars (pre ++ [.variableDecl v]) s
        = some (semant_error (.varPreviouslyDefined v.getName) s1) := by
      rw [hstep]; simp [install_globalVar, hlk]
    exact ⟨s1, _, h1, h2, hrest _ h2, hbound,
      fun _ => ⟨rfl, rfl, rfl⟩, fun h => by rw [hlk] at h; cases h⟩
  | none =>
    have h2 : install_globalVars (pre ++ [.variableDecl v]) s
        = some { s1 with objectEnv := [(v.getName, v.getType) :: scope1] } := by
      have hlk' : ObjectEnvironment.lookup v.getName [scope1] = none := by
        rw [← henv1]; exact hlk
      rw [hstep]
      simp only [install_globalVar, henv1, hlk', Option.isSome_none, Bool.false_eq_true,
        if_false, SemState.addid, ObjectEnvironment.addid]
    refine ⟨s1, _, h1, h2, hrest _ h2, hbound,
      fun h => by rw [hlk] at h; simp at h, fun _ => ⟨rfl, ?_⟩⟩
    simp [ObjectEnvironment.lookup_single, lookup_cons_ite]

/-- C8 on the list `printf`, `f`, `Int x`, `f`, `Float x`: the second
declaration of `x` gets exactly one diagnostic and `x` keeps the type Int. -/
theorem C8_install_globalVars_witness :
    stateGlobal.objectEnv = ObjectEnvironment.enterscope [] ∧
    ∃ s', install_globalVars sampleDecls stateGlobal = some s' ∧
      s'.objectEnv.lookup "x" = some Sym.Int ∧
      s'.error_stream = [.varPreviouslyDefined "x"] := by
  obtain ⟨s', h1, h2, _⟩ := C8_install_globalVars sampleDecls stateGlobal rfl
  refine ⟨rfl, s', h1, ?_, ?_⟩
  · rw [h2]; decide
  · have : install_globalVars sampleDecls stateGlobal
        = some ⟨[.varPreviouslyDefined "x"], [[("x", Sym.Int)]], []⟩ := rfl
    rw [this] at h1
    cases h1
    rfl

/-! ## The entry-point validator -/

/-- C9: `check_main` emits exactly one diagnostic when no function `main` is
registered; otherwise it emits one diagnostic when the parameter list of `main`
is not empty plus, independently, one when its return type is not Void. -/
theorem C9_check_main (s : SemState) :
    (s.callTable.find Sym.Main = none →
      check_main s = semant_error .mainNotDefined s ∧
      (check_main s).semant_errors = s.semant_errors + 1) ∧
    (∀ main, s.callTable.find Sym.Main = some main →
      (check_main s).error_stream = s.error_stream
        ++ (if main.paras ≠ [] then [Diag.mainParameters] else [])
        ++ (if main.returnType ≠ Sym.Void then [Diag.mainReturnType] else []) ∧
      (check_main s).semant_errors = s.semant_errors
        + (if main.paras ≠ [] then 1 else 0)
        + (if main.returnType ≠ Sym.Void then 1 else 0) ∧
      (check_main s).objectEnv = s.objectEnv ∧ (check_main s).callTable = s.callTable) := by
  constructor
  · intro h
    have : check_main s = semant_error .mainNotDefined s := by simp [check_main, h]
    exact ⟨this, by rw [this]; simp⟩
  · intro main h
    have hp : (main.getVariables.length != 0) = true ↔ main.paras ≠ [] := by
      simp [CallDecl.getVariables]
    by_cases h1 : main.paras = [] <;> by_cases h2 : main.returnType = Sym.Void <;>
      simp [check_main, h, CallDecl.getVariables, CallDecl.getType, h1, h2, semant_error,
        SemState.semant_errors]

/-- C9 on a registry without `main` (one diagnostic), on `Int main(Int argc)`
(both diagnostics together) and on `Void main()` (none). -/
theorem C9_check_main_witness :
    SemState.initial.callTable.find Sym.Main = none ∧
    (check_main SemState.initial).semant_errors = 1 ∧
    (check_main ⟨[], [], [("main", declMainBad)]⟩).error_stream
      = [.mainParameters, .mainReturnType] ∧
    (check_main ⟨[], [], [("main", declMainGood)]⟩).error_stream = [] := by
  refine ⟨rfl, ((C9_check_main SemState.initial).1 rfl).2, ?_, ?_⟩
  · rw [((C9_check_main ⟨[], [], [("main", declMainBad)]⟩).2 declMainBad rfl).1]
    decide
  · rw [((C9_check_main ⟨[], [], [("main", declMainGood)]⟩).2 declMainGood rfl).1]
    decide

/-! ## Scopes are balanced -/

theorem SemState.exitscope_of_env (s : SemState) (env : ObjectEnvironment)
    (h : s.objectEnv.exitscope = some env) :
    s.exitscope = some { s with objectEnv := env } := by
  simp [SemState.exitscope, h]

theorem SemState.exitscope_enterscope_of (s0 s : SemState)
    (h : s.objectEnv.exitscope = s0.enterscope.objectEnv.exitscope) :
    s.exitscope = some { s with objectEnv := s0.objectEnv } :=
  SemState.exitscope_of_env s s0.objectEnv (by rw [h]; rfl)

theorem SemState.addid_keepsOuter (name type : Symbol) :
    KeepsOuter (SemState.addid name type) := by
  intro s s' h
  obtain ⟨E, env, ct⟩ := s
  cases env with
  | nil => simp [SemState.addid, ObjectEnvironment.addid] at h
  | cons scope rest =>
    simp only [SemState.addid, ObjectEnvironment.addid, Option.some.injEq] at h
    subst h
    exact ⟨rfl, rfl⟩

theorem SemState.addid_returns (name type : Symbol) (s : SemState) (h : s.objectEnv ≠ []) :
    ∃ s', s.addid name type = some s' ∧ s'.objectEnv ≠ [] := by
  obtain ⟨E, env, ct⟩ := s
  cases env with
  | nil => exact absurd rfl h
  | cons scope rest =>
    exact ⟨⟨E, ((name, type) :: scope) :: rest, ct⟩, rfl, by simp⟩

theorem VariableDecl.check_keepsOuter (d : VariableDecl) : KeepsOuter d.check := by
  intro s s' h
  unfold VariableDecl.check at h
  split at h
  · simp only [Option.some.injEq] at h; subst h; exact ⟨rfl, rfl⟩
  · split at h
    · simp only [Option.some.injEq] at h; subst h; exact ⟨rfl, rfl⟩
    · exact SemState.addid_keepsOuter _ _ s s' h

theorem VariableDecl.variableDecl_check_returns (d : VariableDecl) (s : SemState) (h : s.objectEnv ≠ []) :
    ∃ s', d.check s = some s' ∧ s'.objectEnv ≠ [] := by
  unfold VariableDecl.check
  split
  · exact ⟨_, rfl, h⟩
  · split
    · exact ⟨_, rfl, h⟩
    · exact SemState.addid_returns _ _ s h

theorem checkLocalVarDecls_keepsOuter (vars : List VariableDecl) :
    KeepsOuter (checkLocalVarDecls vars) := by
  induction vars with
  | nil =>
    intro s s' h
    simp only [checkLocalVarDecls, Option.some.injEq] at h
    subst h; exact ⟨rfl, rfl⟩
  | cons d rest ih =>
    intro s s' h
    simp only [checkLocalVarDecls] at h
    cases hd : d.check s with
    | none => simp [hd] at h
    | some s1 =>
      simp only [hd] at h
      obtain ⟨h1, h2⟩ := VariableDecl.check_keepsOuter d s s1 hd
      obtain ⟨h3, h4⟩ := ih s1 s' h
      exact ⟨h3.trans h1, h4.trans h2⟩

theorem checkLocalVarDecls_returns (vars : List VariableDecl) (s : SemState)
    (h : s.objectEnv ≠ []) : ∃ s', checkLocalVarDecls vars s = some s' := by
  induction vars generalizing s with
  | nil => exact ⟨s, rfl⟩
  | cons d rest ih =>
    obtain ⟨s1, h1, h2⟩ := VariableDecl.variableDecl_check_returns d s h
    obtain ⟨s2, h3⟩ := ih s1 h2
    exact ⟨s2, by simp only [checkLocalVarDecls, h1, h3]⟩

theorem StmtBlock.keepsEnv_mk (vars : List VariableDecl) (stmts : Stmts)
    (h : ∀ type, KeepsEnv (stmts.check type)) :
    ∀ type, KeepsEnv ((StmtBlock.mk vars stmts).check type) := by
  intro type s s' hc
  simp only [StmtBlock.check] at hc
  cases h1 : checkLocalVarDecls vars s.enterscope with
  | none => simp [h1] at hc
  | some s1 =>
    simp only [h1] at hc
    cases h2 : stmts.check type s1 with
    | none => simp [h2] at hc
    | some s2 =>
      simp only [h2] at hc
      obtain ⟨e1, c1⟩ := checkLocalVarDecls_keepsOuter vars _ _ h1
      obtain ⟨e2, c2⟩ := h type s1 s2 h2
      rw [SemState.exitscope_enterscope_of s s2 (by rw [e2, e1])] at hc
      simp only [Option.some.injEq] at hc
      subst hc
      exact ⟨rfl, c2.trans c1⟩

theorem Stmt.keepsEnv_IfStmt (condition : Expr) (thenexpr elseexpr : StmtBlock)
    (h1 : ∀ type, KeepsEnv (thenexpr.check type))
    (h2 : ∀ type, KeepsEnv (elseexpr.check type)) :
    ∀ type, KeepsEnv ((Stmt.IfStmt condition thenexpr elseexpr).check type) := by
  intro type s s' hc
  simp only [Stmt.check] at hc
  cases hc1 : condition.checkType s with
  | none => simp [hc1] at hc
  | some r1 =>
    obtain ⟨t1, s1⟩ := r1
    simp only [hc1] at hc
    cases hc2 : condition.checkType s1 with
    | none => simp [hc2] at hc
    | some r2 =>
      obtain ⟨t2, s2⟩ := r2
      simp only [hc2] at hc
      obtain ⟨e1, c1, -⟩ := Expr.checkType_preserves condition s s1 t1 hc1
      obtain ⟨e2, c2, -⟩ := Expr.checkType_preserves condition s1 s2 t2 hc2
      generalize hs3 : (if (t2 != Sym.Bool) = true then semant_error .ifPredicate s2 else s2)
        = s3 at hc
      have e3 : s3.objectEnv = s.objectEnv ∧ s3.callTable = s.callTable := by
        rw [← hs3]
        split
        · exact ⟨e2.trans e1, c2.trans c1⟩
        · exact ⟨e2.trans e1, c2.trans c1⟩
      cases h4 : thenexpr.check type s3.enterscope with
      | none => simp [h4] at hc
      | some s4 =>
        simp only [h4] at hc
        cases h5 : elseexpr.check type s4 with
        | none => simp [h5] at hc
        | some s5 =>
          simp only [h5] at hc
          obtain ⟨e4, c4⟩ := h1 type _ _ h4
          obtain ⟨e5, c5⟩ := h2 type _ _ h5
          rw [SemState.exitscope_enterscope_of s3 s5 (by rw [e5, e4])] at hc
          simp only [Option.some.injEq] at hc
          subst hc
          exact ⟨e3.1, (c5.trans c4).trans e3.2⟩

theorem keepsEnv_some : KeepsEnv (fun s => some s) := by
  intro s s' h
  simp only [Option.some.injEq] at h
  subst h; exact ⟨rfl, rfl⟩

theorem keepsEnv_of_eq {c c' : SemState → Option SemState} (h : ∀ s, c' s = c s)
    (hc : KeepsEnv c) : KeepsEnv c' := by
  have : c' = c := funext h
  rw [this]; exact hc

theorem Stmts.keepsEnv_cons (head : Stmt) (tail : Stmts)
    (h1 : ∀ type, KeepsEnv (head.check type)) (h2 : ∀ type, KeepsEnv (tail.check type)) :
    ∀ type, KeepsEnv ((Stmts.cons head tail).check type) := by
  intro type s s' hc
  simp only [Stmts.check] at hc
  cases h3 : head.check type s with
  | none => simp [h3] at hc
  | some s1 =>
    simp only [h3] at hc
    obtain ⟨e1, c1⟩ := h1 type _ _ h3
    obtain ⟨e2, c2⟩ := h2 type _ _ hc
    exact ⟨e2.trans e1, c2.trans c1⟩

mutual
theorem Stmt.check_keepsEnv : ∀ (st : Stmt) (type : Symbol), KeepsEnv (st.check type)
  | .Block block => fun type =>
    keepsEnv_of_eq (fun _ => by simp only [Stmt.check]) (StmtBlock.block_check_keepsEnv block type)
  | .IfStmt condition thenexpr elseexpr =>
    Stmt.keepsEnv_IfStmt condition thenexpr elseexpr
      (StmtBlock.block_check_keepsEnv thenexpr) (StmtBlock.block_check_keepsEnv elseexpr)
  | .WhileStmt _ _ => fun _ => keepsEnv_of_eq (fun _ => by simp only [Stmt.check]) keepsEnv_some
  | .ForStmt _ _ _ _ => fun _ =>
    keepsEnv_of_eq (fun _ => by simp only [Stmt.check]) keepsEnv_some
  | .ReturnStmt _ => fun _ => keepsEnv_of_eq (fun _ => by simp only [Stmt.check]) keepsEnv_some
  | .ContinueStmt => fun _ => keepsEnv_of_eq (fun _ => by simp only [Stmt.check]) keepsEnv_some
  | .BreakStmt => fun _ => keepsEnv_of_eq (fun _ => by simp only [Stmt.check]) keepsEnv_some
theorem StmtBlock.block_check_keepsEnv :
    ∀ (b : StmtBlock) (type : Symbol), KeepsEnv (b.check type)
  | .mk vars stmts => StmtBlock.keepsEnv_mk vars stmts (Stmts.stmts_check_keepsEnv stmts)
theorem Stmts.stmts_check_keepsEnv : ∀ (l : Stmts) (type : Symbol), KeepsEnv (l.check type)
  | .nil => fun _ => keepsEnv_of_eq (fun _ => by simp only [Stmts.check]) keepsEnv_some
  | .cons head tail =>
    Stmts.keepsEnv_cons head tail (Stmt.check_keepsEnv head) (Stmts.stmts_check_keepsEnv tail)
end

theorem StmtBlock.returns_mk (ct : CallTable) (vars : List VariableDecl) (stmts : Stmts)
    (h : ∀ type s, s.callTable = ct → (stmts.check type s).isSome) :
    ∀ type s, s.callTable = ct → ((StmtBlock.mk vars stmts).check type s).isSome := by
  intro type s hs
  obtain ⟨s1, h1⟩ := checkLocalVarDecls_returns vars s.enterscope
    (by simp [SemState.enterscope, ObjectEnvironment.enterscope])
  obtain ⟨e1, c1⟩ := checkLocalVarDecls_keepsOuter vars _ _ h1
  obtain ⟨s2, h2⟩ := Option.isSome_iff_exists.mp (h type s1 (c1.trans hs))
  obtain ⟨e2, -⟩ := Stmts.stmts_check_keepsEnv stmts type s1 s2 h2
  simp only [StmtBlock.check, h1, h2,
    SemState.exitscope_enterscope_of s s2 (by rw [e2, e1]), Option.isSome_some]

theorem Stmt.returns_IfStmt (ct : CallTable) (condition : Expr) (thenexpr elseexpr : StmtBlock)
    (h0 : ∀ s : SemState, s.callTable = ct → (condition.checkType s).isSome)
    (h1 : ∀ type s, s.callTable = ct → (thenexpr.check type s).isSome)
    (h2 : ∀ type s, s.callTable = ct → (elseexpr.check type s).isSome) :
    ∀ type s, s.callTable = ct →
      ((Stmt.IfStmt condition thenexpr elseexpr).check type s).isSome := by
  intro type s hs
  obtain ⟨⟨t1, s1⟩, hc1⟩ := Option.isSome_iff_exists.mp (h0 s hs)
  obtain ⟨-, c1, -⟩ := Expr.checkType_preserves condition s s1 t1 hc1
  obtain ⟨⟨t2, s2⟩, hc2⟩ := Option.isSome_iff_exists.mp (h0 s1 (c1.trans hs))
  obtain ⟨-, c2, -⟩ := Expr.checkType_preserves condition s1 s2 t2 hc2
  simp only [Stmt.check, hc1, hc2]
  generalize hs3 : (if (t2 != Sym.Bool) = true then semant_error .ifPredicate s2 else s2) = s3
  have c3 : s3.callTable = ct := by
    rw [← hs3]
    split
    · exact (c2.trans c1).trans hs
    · exact (c2.trans c1).trans hs
  obtain ⟨s4, h4⟩ := Option.isSome_iff_exists.mp (h1 type s3.enterscope c3)
  obtain ⟨e4, c4⟩ := StmtBlock.block_check_keepsEnv thenexpr type _ _ h4
  obtain ⟨s5, h5⟩ := Option.isSome_iff_exists.mp (h2 type s4 (c4.trans c3))
  obtain ⟨e5, -⟩ := StmtBlock.block_check_keepsEnv elseexpr type _ _ h5
  simp only [h4, h5, SemState.exitscope_enterscope_of s3 s5 (by rw [e5, e4]),
    Option.isSome_some]

theorem Stmts.returns_cons (ct : CallTable) (head : Stmt) (tail : Stmts)
    (h1 : ∀ type s, s.callTable = ct → (head.check type s).isSome)
    (h2 : ∀ type s, s.callTable = ct → (tail.check type s).isSome) :
    ∀ type s, s.callTable = ct → ((Stmts.cons head tail).check type s).isSome := by
  intro type s hs
  obtain ⟨s1, h3⟩ := Option.isSome_iff_exists.mp (h1 type s hs)
  obtain ⟨-, c1⟩ := Stmt.check_keepsEnv head type _ _ h3
  simp only [Stmts.check, h3]
  exact h2 type s1 (c1.trans hs)

mutual
theorem Stmt.check_returns : ∀ (ct : CallTable) (st : Stmt), st.conditionsReturn ct →
    ∀ type s, s.callTable = ct → (st.check type s).isSome
  | ct, .Block block, h => fun type s hs => by
    rw [Stmt.check]
    exact StmtBlock.block_check_returns ct block (by rw [Stmt.conditionsReturn] at h; exact h)
      type s hs
  | ct, .IfStmt condition thenexpr elseexpr, h =>
    have h' : (∀ s : SemState, s.callTable = ct → (condition.checkType s).isSome)
        ∧ thenexpr.conditionsReturn ct ∧ elseexpr.conditionsReturn ct := by
      rw [Stmt.conditionsReturn] at h; exact h
    Stmt.returns_IfStmt ct condition thenexpr elseexpr h'.1
      (StmtBlock.block_check_returns ct thenexpr h'.2.1)
      (StmtBlock.block_check_returns ct elseexpr h'.2.2)
  | _, .WhileStmt _ _, _ => fun _ _ _ => by rw [Stmt.check]; rfl
  | _, .ForStmt _ _ _ _, _ => fun _ _ _ => by rw [Stmt.check]; rfl
  | _, .ReturnStmt _, _ => fun _ _ _ => by rw [Stmt.check]; rfl
  | _, .ContinueStmt, _ => fun _ _ _ => by rw [Stmt.check]; rfl
  | _, .BreakStmt, _ => fun _ _ _ => by rw [Stmt.check]; rfl
theorem StmtBlock.block_check_returns : ∀ (ct : CallTable) (b : StmtBlock),
    b.conditionsReturn ct → ∀ type s, s.callTable = ct → (b.check type s).isSome
  | ct, .mk vars stmts, h =>
    StmtBlock.returns_mk ct vars stmts
      (Stmts.stmts_check_returns ct stmts (by rw [StmtBlock.conditionsReturn] at h; exact h))
theorem Stmts.stmts_check_returns : ∀ (ct : CallTable) (l : Stmts),
    l.conditionsReturn ct → ∀ type s, s.callTable = ct → (l.check type s).isSome
  | _, .nil, _ => fun _ _ _ => by rw [Stmts.check]; rfl
  | ct, .cons head tail, h =>
    have h' : head.conditionsReturn ct ∧ tail.conditionsReturn ct := by
      rw [Stmts.conditionsReturn] at h; exact h
    Stmts.returns_cons ct head tail (Stmt.check_returns ct head h'.1)
      (Stmts.stmts_check_returns ct tail h'.2)
end

theorem checkParam_keepsOuter (fn : Symbol) (param : Variable) :
    KeepsOuter (checkParam fn param) := by
  intro s s' h
  simp only [checkParam] at h
  generalize hs1 : (if (param.type == Sym.Void) = true then
    semant_error (.parameterVoid fn) s else s) = s1 at h
  have e1 : s1.objectEnv = s.objectEnv ∧ s1.callTable = s.callTable := by
    rw [← hs1]; split <;> exact ⟨rfl, rfl⟩
  generalize hs2 : (if (s1.objectEnv.probe param.name == some param.type) = true then
    semant_error (.parameterDuplicate fn param.name) s1 else s1) = s2 at h
  have e2 : s2.objectEnv = s.objectEnv ∧ s2.callTable = s.callTable := by
    rw [← hs2]; split <;> exact e1
  split at h
  · obtain ⟨h3, h4⟩ := SemState.addid_keepsOuter _ _ s2 s' h
    exact ⟨by rw [h3, e2.1], h4.trans e2.2⟩
  · simp only [Option.some.injEq] at h
    subst h
    exact ⟨by rw [e2.1], e2.2⟩

theorem checkParam_returns (fn : Symbol) (param : Variable) (s : SemState)
    (h : s.objectEnv ≠ []) : ∃ s', checkParam fn param s = some s' ∧ s'.objectEnv ≠ [] := by
  simp only [checkParam]
  generalize hs1 : (if (param.type == Sym.Void) = true then
    semant_error (.parameterVoid fn) s else s) = s1
  have e1 : s1.objectEnv = s.objectEnv := by
    rw [← hs1]; split <;> rfl
  generalize hs2 : (if (s1.objectEnv.probe param.name == some param.type) = true then
    semant_error (.parameterDuplicate fn param.name) s1 else s1) = s2
  have e2 : s2.objectEnv ≠ [] := by
    rw [← hs2]; split <;> (simp only [semant_error, e1]; exact h)
  split
  · exact SemState.addid_returns _ _ s2 e2
  · exact ⟨s2, rfl, e2⟩

theorem checkParams_keepsOuter (fn : Symbol) (params : List Variable) :
    KeepsOuter (checkParams fn params) := by
  induction params with
  | nil =>
    intro s s' h
    simp only [checkParams, Option.some.injEq] at h
    subst h; exact ⟨rfl, rfl⟩
  | cons d rest ih =>
    intro s s' h
    simp only [checkParams] at h
    cases hd : checkParam fn d s with
    | none => simp [hd] at h
    | some s1 =>
      simp only [hd] at h
      obtain ⟨h1, h2⟩ := checkParam_keepsOuter fn d s s1 hd
      obtain ⟨h3, h4⟩ := ih s1 s' h
      exact ⟨h3.trans h1, h4.trans h2⟩

theorem checkParams_returns (fn : Symbol) (params : List Variable) (s : SemState)
    (h : s.objectEnv ≠ []) : ∃ s', checkParams fn params s = some s' := by
  induction params generalizing s with
  | nil => exact ⟨s, rfl⟩
  | cons d rest ih =>
    obtain ⟨s1, h1, h2⟩ := checkParam_returns fn d s h
    obtain ⟨s2, h3⟩ := ih s1 h2
    exact ⟨s2, by simp only [checkParams, h1, h3]⟩

theorem CallDecl.callDecl_check_keepsEnv (c : CallDecl) : KeepsEnv c.check := by
  intro s s' h
  simp only [CallDecl.check] at h
  generalize hs1 : (if (!isValidCallName c.getType) = true then
    semant_error .returnTypePrint s else s) = s1 at h
  have e1 : s1.objectEnv = s.objectEnv ∧ s1.callTable = s.callTable := by
    rw [← hs1]; split <;> exact ⟨rfl, rfl⟩
  cases h2 : checkParams c.name c.getVariables s1.enterscope with
  | none => simp [h2] at h
  | some s2 =>
    simp only [h2] at h
    cases h3 : c.body.check c.getType s2 with
    | none => simp [h3] at h
    | some s3 =>
      simp only [h3] at h
      obtain ⟨e2, c2⟩ := checkParams_keepsOuter c.name c.getVariables _ _ h2
      obtain ⟨e3, c3⟩ := StmtBlock.block_check_keepsEnv c.body c.getType _ _ h3
      rw [SemState.exitscope_enterscope_of s1 s3 (by rw [e3, e2])] at h
      simp only [Option.some.injEq] at h
      subst h
      exact ⟨e1.1, (c3.trans c2).trans e1.2⟩

theorem CallDecl.callDecl_check_returns (c : CallDecl) (s : SemState)
    (h : c.body.conditionsReturn s.callTable) : (c.check s).isSome := by
  simp only [CallDecl.check]
  generalize hs1 : (if (!isValidCallName c.getType) = true then
    semant_error .returnTypePrint s else s) = s1
  have c1 : s1.callTable = s.callTable := by
    rw [← hs1]; split <;> rfl
  obtain ⟨s2, h2⟩ := checkParams_returns c.name c.getVariables s1.enterscope
    (by simp [SemState.enterscope, ObjectEnvironment.enterscope])
  obtain ⟨e2, c2⟩ := checkParams_keepsOuter c.name c.getVariables _ _ h2
  obtain ⟨s3, h3⟩ := Option.isSome_iff_exists.mp
    (StmtBlock.block_check_returns s.callTable c.body h c.getType s2 (c2.trans c1))
  obtain ⟨e3, -⟩ := StmtBlock.block_check_keepsEnv c.body c.getType _ _ h3
  simp only [h2, h3, SemState.exitscope_enterscope_of s1 s3 (by rw [e3, e2]),
    Option.isSome_some]

/-- C10: scope entry and exit are balanced.  Whenever the check of a statement,
of a block or of a function declaration returns, from any state and with or
without diagnostics, the scope-stack depth is what it was before (the binding
environment is restored); and the check does return when the checks of the `if`
conditions inside it return. -/
theorem C10_scope_balanced :
    (∀ (st : Stmt) (type : Symbol) (s s' : SemState), st.check type s = some s' →
      s'.objectEnv.depth = s.objectEnv.depth ∧ s'.objectEnv = s.objectEnv) ∧
    (∀ (b : StmtBlock) (type : Symbol) (s s' : SemState), b.check type s = some s' →
      s'.objectEnv.depth = s.objectEnv.depth ∧ s'.objectEnv = s.objectEnv) ∧
    (∀ (c : CallDecl) (s s' : SemState), c.check s = some s' →
      s'.objectEnv.depth = s.objectEnv.depth ∧ s'.objectEnv = s.objectEnv) ∧
    (∀ (st : Stmt) (type : Symbol) (s : SemState), st.conditionsReturn s.callTable →
      ∃ s', st.check type s = some s' ∧ s'.objectEnv.depth = s.objectEnv.depth) ∧
    (∀ (c : CallDecl) (s : SemState), c.body.conditionsReturn s.callTable →
      ∃ s', c.check s = some s' ∧ s'.objectEnv.depth = s.objectEnv.depth) := by
  refine ⟨fun st type s s' h => ?_, fun b type s s' h => ?_, fun c s s' h => ?_,
    fun st type s h => ?_, fun c s h => ?_⟩
  · have := (Stmt.check_keepsEnv st type s s' h).1
    exact ⟨by rw [this], this⟩
  · have := (StmtBlock.block_check_keepsEnv b type s s' h).1
    exact ⟨by rw [this], this⟩
  · have := (CallDecl.callDecl_check_keepsEnv c s s' h).1
    exact ⟨by rw [this], this⟩
  · obtain ⟨s', hs'⟩ := Option.isSome_iff_exists.mp (Stmt.check_returns _ st h type s rfl)
    exact ⟨s', hs', by rw [(Stmt.check_keepsEnv st type s s' hs').1]⟩
  · obtain ⟨s', hs'⟩ := Option.isSome_iff_exists.mp (CallDecl.callDecl_check_returns c s h)
    exact ⟨s', hs', by rw [(CallDecl.callDecl_check_keepsEnv c s s' hs').1]⟩

/-- C10 on the function `Int g(Void v)` whose body nests blocks, `if`, `while`
and `break`: its check returns with diagnostics and with the scope stack at its
starting depth. -/
theorem C10_scope_balanced_witness :
    declG.body.conditionsReturn stateF.callTable ∧
    (∃ s', declG.check stateF = some s' ∧ s'.objectEnv.depth = stateF.objectEnv.depth) ∧
    (declG.check stateF).map (fun s' => (s'.error_stream, s'.objectEnv.depth))
      = some ([.parameterVoid "g",
          .cannotCompare Sym.Int Sym.String, .cannotCompare Sym.Int Sym.String,
          .ifPredicate, .objectUndefined "y", .objectUndefined "y", .ifPredicate], 1) := by
  have hcond : declG.body.conditionsReturn stateF.callTable := by
    simp only [declG, sampleBlock, emptyBlock, StmtBlock.conditionsReturn,
      Stmts.conditionsReturn, Stmt.conditionsReturn, and_true, true_and]
    refine ⟨fun s _ => ?_, fun s _ => ?_⟩
    · simp only [Expr.checkType, Option.isSome_some]
    · simp only [Expr.checkType]
      cases ObjectEnvironment.lookup "y" s.objectEnv <;> rfl
  exact ⟨hcond, C10_scope_balanced.2.2.2.2 declG stateF hcond, by decide⟩

/-! ## Return statements, rejected operands and Void variables -/

/-- C11: the check of a return statement does nothing.  It returns the state
it was given for every expression and every expected type, so `return 1;` in
the function `Void h()` gets no diagnostic. -/
theorem C11_return_not_checked :
    (∀ (value : Expr) (type : Symbol) (s : SemState),
      (Stmt.ReturnStmt value).check type s = some s) ∧
    (Expr.Const_int "1").checkType stateF = some (Sym.Int, stateF) ∧
    Sym.Int ≠ declReturn.getType ∧
    declReturn.check stateF = some stateF ∧
    stateF.semant_errors = 0 := by
  refine ⟨fun value type s => ?_, rfl, by decide, rfl, rfl⟩
  simp only [Stmt.check]

theorem modRule_reject (t1 t2 : Symbol) (s : SemState)
    (h : ¬(t1 = Sym.Int ∧ t2 = Sym.Int)) :
    modRule t1 t2 s = (Sym.Void, semant_error (.cannotMod t1 t2) s) := by
  have : (!sameType t1 Sym.Int || !sameType t2 Sym.Int) = true := by
    simp only [sameType, Bool.or_eq_true, Bool.not_eq_true', beq_eq_false_iff_ne]
    by_contra hc
    apply h
    simp only [not_or, ne_eq, not_not] at hc
    exact hc
  simp [modRule, this]

theorem negRule_reject (t1 : Symbol) (s : SemState)
    (h : ¬(t1 = Sym.Int ∨ t1 = Sym.Float)) :
    negRule t1 s = (Sym.Void, semant_error (.noNegative t1) s) := by
  have : (!sameType t1 Sym.Int && !sameType t1 Sym.Float) = true := by
    simp only [sameType, Bool.and_eq_true, Bool.not_eq_true', beq_eq_false_iff_ne]
    simp only [not_or] at h
    exact h
  simp [negRule, this]

theorem void_not_numeric : ¬(Sym.Void = Sym.Int ∨ Sym.Void = Sym.Float ∨ Sym.Void = Sym.Bool) := by
  decide

/-- C12, as the code has it: an operator one of whose operands has the
sentinel type Void is itself rejected; it returns Void and adds exactly one
diagnostic of its own after those of its operands. -/
theorem C12_rejected_operand_cascades (e1 e2 : Expr) (s s1 s2 : SemState) (t1 t2 : Symbol)
    (h1 : e1.checkType s = some (t1, s1)) (h2 : e2.checkType s1 = some (t2, s2))
    (hv : t1 = Sym.Void ∨ t2 = Sym.Void) :
    (∀ op ∈ [Expr.Add, Expr.Minus, Expr.Multi, Expr.Divide, Expr.Lt, Expr.Le, Expr.Gt,
        Expr.Ge, Expr.Equ, Expr.Neq],
      (op e1 e2).checkType s = some (Sym.Void, semant_error (.cannotCompare t1 t2) s2)) ∧
    (Expr.Mod e1 e2).checkType s = some (Sym.Void, semant_error (.cannotMod t1 t2) s2) ∧
    (t1 = Sym.Void →
      (Expr.Neg e1).checkType s = some (Sym.Void, semant_error (.noNegative t1) s1)) ∧
    (semant_error (.cannotCompare t1 t2) s2).semant_errors = s2.semant_errors + 1 ∧
    (semant_error (.cannotMod t1 t2) s2).semant_errors = s2.semant_errors + 1 := by
  have hc : ¬((t1 = Sym.Int ∨ t1 = Sym.Float) ∧ (t2 = Sym.Int ∨ t2 = Sym.Float)) := by
    rintro ⟨ha, hb⟩
    rcases hv with rfl | rfl
    · exact void_not_numeric (by tauto)
    · exact void_not_numeric (by tauto)
  have he : ¬((t1 = Sym.Int ∨ t1 = Sym.Float ∨ t1 = Sym.Bool)
      ∧ (t2 = Sym.Int ∨ t2 = Sym.Float ∨ t2 = Sym.Bool)) := by
    rintro ⟨ha, hb⟩
    rcases hv with rfl | rfl
    · exact void_not_numeric ha
    · exact void_not_numeric hb
  have hm : ¬(t1 = Sym.Int ∧ t2 = Sym.Int) := by
    rintro ⟨ha, hb⟩
    rcases hv with rfl | rfl
    · exact void_not_numeric (Or.inl ha)
    · exact void_not_numeric (Or.inl hb)
  refine ⟨fun op hop => ?_, ?_, fun hv1 => ?_, semant_errors_semant_error _ _,
    semant_errors_semant_error _ _⟩
  · simp only [List.mem_cons, List.mem_singleton, List.not_mem_nil, or_false] at hop
    rcases hop with rfl | rfl | rfl | rfl | rfl | rfl | rfl | rfl | rfl | rfl
    all_goals
      simp only [Expr.checkType, h1, h2, compareRule_reject t1 t2 s2 hc,
        equalityRule_reject t1 t2 s2 he]
  · simp only [Expr.checkType, h1, h2, modRule_reject t1 t2 s2 hm]
  · have hn : ¬(t1 = Sym.Int ∨ t1 = Sym.Float) := by
      subst hv1
      exact fun h => void_not_numeric (by tauto)
    simp only [Expr.checkType, h1, negRule_reject t1 s1 hn]

/-- C12 on `(1 + "a") + 2`: the inner sum is rejected with the type Void, and
the outer sum adds a second diagnostic. -/
theorem C12_rejected_operand_cascades_witness :
    (Expr.Add (.Const_int "1") (.Const_string "a")).checkType SemState.initial
      = some (Sym.Void, semant_error (.cannotCompare Sym.Int Sym.String) SemState.initial) ∧
    (Expr.Const_int "2").checkType
        (semant_error (.cannotCompare Sym.Int Sym.String) SemState.initial)
      = some (Sym.Int, semant_error (.cannotCompare Sym.Int Sym.String) SemState.initial) ∧
    exprCascade.checkType SemState.initial
      = some (Sym.Void, semant_error (.cannotCompare Sym.Void Sym.Int)
          (semant_error (.cannotCompare Sym.Int Sym.String) SemState.initial)) :=
  ⟨rfl, rfl,
    (C12_rejected_operand_cascades (.Add (.Const_int "1") (.Const_string "a"))
      (.Const_int "2") SemState.initial _ _ Sym.Void Sym.Int rfl rfl (Or.inl rfl)).1
      Expr.Add (by simp)⟩

/-- C12 as stated fails on `(1 + "a") + 2`: its first operand is rejected with
one diagnostic and the type Void, yet the whole check yields two diagnostics,
not one. -/
theorem C12_no_cascade_counterexample :
    ((Expr.Add (.Const_int "1") (.Const_string "a")).checkType SemState.initial).map
        (fun r => (r.1, r.2.error_stream))
      = some (Sym.Void, [.cannotCompare Sym.Int Sym.String]) ∧
    (exprCascade.checkType SemState.initial).map (fun r => r.2.error_stream)
      = some [.cannotCompare Sym.Int Sym.String, .cannotCompare Sym.Void Sym.Int] ∧
    ¬ (exprCascade.checkType SemState.initial).map (fun r => r.2.semant_errors) = some 1 := by
  refine ⟨by decide, by decide, by decide⟩

/-- C13: a block-local declaration of type Void gets a diagnostic and changes
no binding, but `install_globalVars` does not look at the type: the global
`Void v` is bound to Void without any diagnostic. -/
theorem C13_global_void_accepted :
    (∀ (d : VariableDecl) (s : SemState), d.getType = Sym.Void →
      d.check s = some (semant_error (.varVoid d.getName) s) ∧
      (semant_error (.varVoid d.getName) s).objectEnv = s.objectEnv) ∧
    declVVoid.getType = Sym.Void ∧
    install_globalVars [.variableDecl declVVoid] stateGlobal
      = some { error_stream := [], objectEnv := [[("v", Sym.Void)]], callTable := [] } ∧
    (install_globalVars [.variableDecl declVVoid] stateGlobal).map
        (fun s => (s.semant_errors, s.objectEnv.lookup "v")) = some (0, some Sym.Void) := by
  refine ⟨fun d s h => ⟨?_, rfl⟩, rfl, rfl, by decide⟩
  have h' : d.variable_.type = Sym.Void := h
  simp [VariableDecl.check, isValidTypeName, h', VariableDecl.getName]

/-! ## Statements only append diagnostics -/

theorem SemState.exitscope_error_stream (s s' : SemState) (h : s.exitscope = some s') :
    s'.error_stream = s.error_stream := by
  unfold SemState.exitscope at h
  split at h
  · cases h
  · simp only [Option.some.injEq] at h
    subst h; rfl

theorem SemState.addid_error_stream (name type : Symbol) (s s' : SemState)
    (h : s.addid name type = some s') : s'.error_stream = s.error_stream := by
  unfold SemState.addid at h
  split at h
  · cases h
  · simp only [Option.some.injEq] at h
    subst h; rfl

theorem VariableDecl.variableDecl_check_appends (d : VariableDecl) : AppendsErrors d.check := by
  intro s s' h
  unfold VariableDecl.check at h
  split at h
  · simp only [Option.some.injEq] at h; subst h; exact ⟨[_], rfl⟩
  · split at h
    · simp only [Option.some.injEq] at h; subst h; exact ⟨[_], rfl⟩
    · exact ⟨[], by simp [SemState.addid_error_stream _ _ s s' h]⟩

theorem checkLocalVarDecls_appends (vars : List VariableDecl) :
    AppendsErrors (checkLocalVarDecls vars) := by
  induction vars with
  | nil =>
    intro s s' h
    simp only [checkLocalVarDecls, Option.some.injEq] at h
    subst h; exact ⟨[], by simp⟩
  | cons d rest ih =>
    intro s s' h
    simp only [checkLocalVarDecls] at h
    cases hd : d.check s with
    | none => simp [hd] at h
    | some s1 =>
      simp only [hd] at h
      obtain ⟨d1, h1⟩ := VariableDecl.variableDecl_check_appends d s s1 hd
      obtain ⟨d2, h2⟩ := ih s1 s' h
      exact ⟨d1 ++ d2, by rw [h2, h1, List.append_assoc]⟩

theorem StmtBlock.appends_mk (vars : List VariableDecl) (stmts : Stmts)
    (h : ∀ type, AppendsErrors (stmts.check type)) :
    ∀ type, AppendsErrors ((StmtBlock.mk vars stmts).check type) := by
  intro type s s' hc
  simp only [StmtBlock.check] at hc
  cases h1 : checkLocalVarDecls vars s.enterscope with
  | none => simp [h1] at hc
  | some s1 =>
    simp only [h1] at hc
    cases h2 : stmts.check type s1 with
    | none => simp [h2] at hc
    | some s2 =>
      simp only [h2] at hc
      obtain ⟨d1, e1⟩ := checkLocalVarDecls_appends vars _ _ h1
      obtain ⟨d2, e2⟩ := h type s1 s2 h2
      refine ⟨d1 ++ d2, ?_⟩
      rw [SemState.exitscope_error_stream s2 s' hc, e2, e1, List.append_assoc]
      rfl

/-- The state after the predicate test of an `if` whose condition has the type
`t`, reached in the state `s2`. -/
theorem ifPredicate_state (t : Symbol) (s2 : SemState) :
    (if (t != Sym.Bool) = true then semant_error .ifPredicate s2 else s2)
      = { s2 with error_stream :=
          s2.error_stream ++ (if t = Sym.Bool then [] else [Diag.ifPredicate]) } := by
  by_cases h : t = Sym.Bool
  · simp [h]
  · have : (t != Sym.Bool) = true := by simp [h]
    simp [this, h, semant_error]

theorem Stmt.appends_IfStmt (condition : Expr) (thenexpr elseexpr : StmtBlock)
    (h1 : ∀ type, AppendsErrors (thenexpr.check type))
    (h2 : ∀ type, AppendsErrors (elseexpr.check type)) :
    ∀ type, AppendsErrors ((Stmt.IfStmt condition thenexpr elseexpr).check type) := by
  intro type s s' hc
  simp only [Stmt.check] at hc
  cases hc1 : condition.checkType s with
  | none => simp [hc1] at hc
  | some r1 =>
    obtain ⟨t1, s1⟩ := r1
    simp only [hc1] at hc
    cases hc2 : condition.checkType s1 with
    | none => simp [hc2] at hc
    | some r2 =>
      obtain ⟨t2, s2⟩ := r2
      simp only [hc2] at hc
      obtain ⟨-, -, d1, e1⟩ := Expr.checkType_preserves condition s s1 t1 hc1
      obtain ⟨-, -, d2, e2⟩ := Expr.checkType_preserves condition s1 s2 t2 hc2
      rw [ifPredicate_state] at hc
      cases h4 : thenexpr.check type
          (SemState.enterscope { s2 with error_stream :=
            s2.error_stream ++ (if t2 = Sym.Bool then [] else [Diag.ifPredicate]) }) with
      | none => simp [h4] at hc
      | some s4 =>
        simp only [h4] at hc
        cases h5 : elseexpr.check type s4 with
        | none => simp [h5] at hc
        | some s5 =>
          simp only [h5] at hc
          obtain ⟨d4, e4⟩ := h1 type _ _ h4
          obtain ⟨d5, e5⟩ := h2 type _ _ h5
          refine ⟨d1 ++ d2 ++ (if t2 = Sym.Bool then [] else [Diag.ifPredicate]) ++ d4 ++ d5, ?_⟩
          rw [SemState.exitscope_error_stream s5 s' hc, e5, e4]
          simp only [SemState.enterscope, e2, e1, List.append_assoc]

theorem appends_some : AppendsErrors (fun s => some s) := by
  intro s s' h
  simp only [Option.some.injEq] at h
  subst h; exact ⟨[], by simp⟩

theorem appends_of_eq {c c' : SemState → Option SemState} (h : ∀ s, c' s = c s)
    (hc : AppendsErrors c) : AppendsErrors c' := by
  have : c' = c := funext h
  rw [this]; exact hc

theorem Stmts.appends_cons (head : Stmt) (tail : Stmts)
    (h1 : ∀ type, AppendsErrors (head.check type))
    (h2 : ∀ type, AppendsErrors (tail.check type)) :
    ∀ type, AppendsErrors ((Stmts.cons head tail).check type) := by
  intro type s s' hc
  simp only [Stmts.check] at hc
  cases h3 : head.check type s with
  | none => simp [h3] at hc
  | some s1 =>
    simp only [h3] at hc
    obtain ⟨d1, e1⟩ := h1 type _ _ h3
    obtain ⟨d2, e2⟩ := h2 type _ _ hc
    exact ⟨d1 ++ d2, by rw [e2, e1, List.append_assoc]⟩

mutual
theorem Stmt.check_appends : ∀ (st : Stmt) (type : Symbol), AppendsErrors (st.check type)
  | .Block block => fun type =>
    appends_of_eq (fun _ => by simp only [Stmt.check]) (StmtBlock.block_check_appends block type)
  | .IfStmt condition thenexpr elseexpr =>
    Stmt.appends_IfStmt condition thenexpr elseexpr
      (StmtBlock.block_check_appends thenexpr) (StmtBlock.block_check_appends elseexpr)
  | .WhileStmt _ _ => fun _ => appends_of_eq (fun _ => by simp only [Stmt.check]) appends_some
  | .ForStmt _ _ _ _ => fun _ =>
    appends_of_eq (fun _ => by simp only [Stmt.check]) appends_some
  | .ReturnStmt _ => fun _ => appends_of_eq (fun _ => by simp only [Stmt.check]) appends_some
  | .ContinueStmt => fun _ => appends_of_eq (fun _ => by simp only [Stmt.check]) appends_some
  | .BreakStmt => fun _ => appends_of_eq (fun _ => by simp only [Stmt.check]) appends_some
theorem StmtBlock.block_check_appends :
    ∀ (b : StmtBlock) (type : Symbol), AppendsErrors (b.check type)
  | .mk vars stmts => StmtBlock.appends_mk vars stmts (Stmts.stmts_check_appends stmts)
theorem Stmts.stmts_check_appends :
    ∀ (l : Stmts) (type : Symbol), AppendsErrors (l.check type)
  | .nil => fun _ => appends_of_eq (fun _ => by simp only [Stmts.check]) appends_some
  | .cons head tail =>
    Stmts.appends_cons head tail (Stmt.check_appends head) (Stmts.stmts_check_appends tail)
end

/-! ## The `if` statement and the loop statements -/

/-- The check of an `if` statement whose condition check returns: the condition
is checked a second time with the same result, the predicate test follows, and
the two branches are checked in one entered scope. -/
theorem Stmt.check_IfStmt_eq (condition : Expr) (thenexpr elseexpr : StmtBlock)
    (type : Symbol) (s s1 : SemState) (t : Symbol)
    (hc : condition.checkType s = some (t, s1)) :
    ∃ dcond : List Diag,
      s1 = { s with error_stream := s.error_stream ++ dcond } ∧
      condition.checkType s1
        = some (t, { s with error_stream := s.error_stream ++ dcond ++ dcond }) ∧
      (Stmt.IfStmt condition thenexpr elseexpr).check type s
        = match thenexpr.check type (SemState.enterscope { s with error_stream :=
              s.error_stream ++ dcond ++ dcond
                ++ (if t = Sym.Bool then [] else [Diag.ifPredicate]) }) with
          | none => none
          | some s4 =>
            match elseexpr.check type s4 with
            | none => none
            | some s5 => s5.exitscope := by
  obtain ⟨E, env, ct⟩ := s
  obtain ⟨ds, rfl, f⟩ := Expr.checkType_framed condition E env ct t s1 hc
  refine ⟨ds, rfl, f (E ++ ds), ?_⟩
  simp only [Stmt.check, hc, f (E ++ ds), ifPredicate_state]

/-- C15: in the check of an `if` statement the predicate diagnostic is written
exactly once when the condition's type is not Bool and never when it is Bool;
whatever the outcome, the then-branch and then the else-branch are checked with
the threaded return type, both inside the one scope entered for the `if`, which
is left afterwards. -/
theorem C15_if_statement (condition : Expr) (thenexpr elseexpr : StmtBlock)
    (type : Symbol) (s s1 : SemState) (t : Symbol)
    (hc : condition.checkType s = some (t, s1)) :
    ∃ s2 s3 : SemState,
      condition.checkType s1 = some (t, s2) ∧
      (t = Sym.Bool → s3 = s2) ∧
      (t ≠ Sym.Bool → s3 = semant_error .ifPredicate s2 ∧
        s3.error_stream = s2.error_stream ++ [.ifPredicate]) ∧
      s3.objectEnv = s.objectEnv ∧
      s3.enterscope.objectEnv.depth = s.objectEnv.depth + 1 ∧
      (Stmt.IfStmt condition thenexpr elseexpr).check type s
        = (thenexpr.check type s3.enterscope).bind
            (fun s4 => (elseexpr.check type s4).bind SemState.exitscope) ∧
      (∀ s4, thenexpr.check type s3.enterscope = some s4 →
        s4.objectEnv = s3.enterscope.objectEnv) ∧
      (∀ s4 s5, thenexpr.check type s3.enterscope = some s4 →
        elseexpr.check type s4 = some s5 →
        ∃ s', s5.exitscope = some s' ∧ s'.objectEnv = s.objectEnv) := by
  obtain ⟨dcond, rfl, h2, hif⟩ :=
    Stmt.check_IfStmt_eq condition thenexpr elseexpr type s s1 t hc
  refine ⟨_, { s with error_stream := s.error_stream ++ dcond ++ dcond
      ++ (if t = Sym.Bool then [] else [Diag.ifPredicate]) }, h2, ?_, ?_, rfl, ?_, ?_, ?_, ?_⟩
  · intro ht; simp [ht]
  · intro ht; simp [ht, semant_error]
  · simp [SemState.enterscope, ObjectEnvironment.enterscope, ObjectEnvironment.depth]
  · rw [hif]
    cases thenexpr.check type _ with
    | none => rfl
    | some s4 =>
      simp only [Option.some_bind]
      cases elseexpr.check type s4 <;> rfl
  · intro s4 h4
    exact (StmtBlock.block_check_keepsEnv thenexpr type _ _ h4).1
  · intro s4 s5 h4 h5
    have e4 := (StmtBlock.block_check_keepsEnv thenexpr type _ _ h4).1
    have e5 := (StmtBlock.block_check_keepsEnv elseexpr type _ _ h5).1
    refine ⟨{ s5 with objectEnv := s.objectEnv }, ?_, rfl⟩
    exact SemState.exitscope_of_env s5 s.objectEnv (by rw [e5, e4]; rfl)

/-- C15 on `if (1 + "a") {} else {}`: the condition has the type Void, the
predicate diagnostic is written once, and both branches are checked. -/
theorem C15_if_statement_witness :
    (Expr.Add (.Const_int "1") (.Const_string "a")).checkType stateF
      = some (Sym.Void, semant_error (.cannotCompare Sym.Int Sym.String) stateF) ∧
    ∃ s2 s3 : SemState,
      s3 = semant_error .ifPredicate s2 ∧
      ifBadCondition.check Sym.Int stateF
        = (emptyBlock.check Sym.Int s3.enterscope).bind
            (fun s4 => (emptyBlock.check Sym.Int s4).bind SemState.exitscope) := by
  obtain ⟨s2, s3, _, _, h3, _, _, h6, _⟩ :=
    C15_if_statement (.Add (.Const_int "1") (.Const_string "a")) emptyBlock emptyBlock
      Sym.Int stateF _ Sym.Void rfl
  exact ⟨rfl, s2, s3, (h3 (by decide)).1, h6⟩

/-- C16: the checks of `while` and `for` do nothing.  They return the state
they were given, so a condition that is not Bool and an undefined variable in
the loop body get no diagnostic. -/
theorem C16_loops_not_checked :
    (∀ (condition : Expr) (body : StmtBlock) (type : Symbol) (s : SemState),
      (Stmt.WhileStmt condition body).check type s = some s) ∧
    (∀ (initexpr condition loopact : Expr) (body : StmtBlock) (type : Symbol) (s : SemState),
      (Stmt.ForStmt initexpr condition loopact body).check type s = some s) ∧
    (Expr.Const_int "1").checkType stateF = some (Sym.Int, stateF) ∧
    ((Stmt.IfStmt (.Object "y") emptyBlock emptyBlock).check Sym.Int stateF).map
        (fun s => s.error_stream)
      = some [.objectUndefined "y", .objectUndefined "y", .ifPredicate] ∧
    whileBad.check Sym.Int stateF = some stateF ∧
    forBad.check Sym.Int stateF = some stateF ∧
    stateF.semant_errors = 0 := by
  refine ⟨fun _ _ _ _ => ?_, fun _ _ _ _ _ _ => ?_, rfl, by decide, rfl, rfl, rfl⟩
  · simp only [Stmt.check]
  · simp only [Stmt.check]

/-- C19: the diagnostics of the condition of an `if` statement appear twice.
When the check returns, its error stream is the starting stream, then the
diagnostics of one check of the condition twice over, then the predicate
diagnostic if the condition's type is not Bool, then the diagnostics of the
then-branch and of the else-branch; the count follows.  The branches are the
ones checked by the statement itself: the then-branch in the state `s3` of the
`if` after the predicate test (the starting state with the longer stream) with
its scope entered, the else-branch in the state the then-branch leaves, and the
result is that state with the scope left. -/
theorem C19_if_condition_checked_twice (condition : Expr) (thenexpr elseexpr : StmtBlock)
    (type : Symbol) (s s1 s' : SemState) (t : Symbol)
    (hc : condition.checkType s = some (t, s1))
    (hif : (Stmt.IfStmt condition thenexpr elseexpr).check type s = some s') :
    ∃ (dcond dthen delse : List Diag) (s3 s4 s5 : SemState),
      s1 = { s with error_stream := s.error_stream ++ dcond } ∧
      s1.error_stream = s.error_stream ++ dcond ∧
      s3 = { s with error_stream := s.error_stream ++ dcond ++ dcond
        ++ (if t = Sym.Bool then [] else [Diag.ifPredicate]) } ∧
      s3.error_stream = s.error_stream ++ dcond ++ dcond
        ++ (if t = Sym.Bool then [] else [Diag.ifPredicate]) ∧
      thenexpr.check type s3.enterscope = some s4 ∧
      s4.error_stream = s3.error_stream ++ dthen ∧
      elseexpr.check type s4 = some s5 ∧
      s5.error_stream = s4.error_stream ++ delse ∧
      s5.exitscope = some s' ∧
      s'.error_stream = s.error_stream ++ dcond ++ dcond
        ++ (if t = Sym.Bool then [] else [Diag.ifPredicate]) ++ dthen ++ delse ∧
      s'.semant_errors = s.semant_errors + 2 * dcond.length
        + (if t = Sym.Bool then 0 else 1) + dthen.length + delse.length := by
  obtain ⟨dcond, rfl, -, heq⟩ :=
    Stmt.check_IfStmt_eq condition thenexpr elseexpr type s _ t hc
  rw [heq] at hif
  cases h4 : thenexpr.check type (SemState.enterscope { s with error_stream :=
      s.error_stream ++ dcond ++ dcond
        ++ (if t = Sym.Bool then [] else [Diag.ifPredicate]) }) with
  | none => simp only [h4, reduceCtorEq] at hif
  | some s4 =>
    simp only [h4] at hif
    cases h5 : elseexpr.check type s4 with
    | none => simp only [h5, reduceCtorEq] at hif
    | some s5 =>
      simp only [h5] at hif
      obtain ⟨dthen, e4⟩ := StmtBlock.block_check_appends thenexpr type _ _ h4
      obtain ⟨delse, e5⟩ := StmtBlock.block_check_appends elseexpr type _ _ h5
      have e' := SemState.exitscope_error_stream s5 s' hif
      have hs' : s'.error_stream = s.error_stream ++ dcond ++ dcond
          ++ (if t = Sym.Bool then [] else [Diag.ifPredicate]) ++ dthen ++ delse := by
        rw [e', e5, e4]; rfl
      refine ⟨dcond, dthen, delse, _, s4, s5, rfl, rfl, rfl, rfl, h4, e4, h5, e5, hif,
        hs', ?_⟩
      simp only [SemState.semant_errors, hs', List.length_append]
      by_cases ht : t = Sym.Bool
      · simp [ht]; omega
      · simp [ht]; omega

/-- C19 on `if (1 + "a") {} else {}`: one check of the condition gives one
diagnostic, and the statement adds three. -/
theorem C19_if_condition_checked_twice_witness :
    (Expr.Add (.Const_int "1") (.Const_string "a")).checkType stateF
      = some (Sym.Void, semant_error (.cannotCompare Sym.Int Sym.String) stateF) ∧
    ifBadCondition.check Sym.Int stateF
      = some { stateF with error_stream := [.cannotCompare Sym.Int Sym.String,
          .cannotCompare Sym.Int Sym.String, .ifPredicate] } ∧
    ∃ dcond dthen delse : List Diag,
      (semant_error (.cannotCompare Sym.Int Sym.String) stateF).error_stream
        = stateF.error_stream ++ dcond ∧
      [Diag.cannotCompare Sym.Int Sym.String, .cannotCompare Sym.Int Sym.String, .ifPredicate]
        = stateF.error_stream ++ dcond ++ dcond
          ++ (if Sym.Void = Sym.Bool then [] else [Diag.ifPredicate]) ++ dthen ++ delse ∧
      3 = stateF.semant_errors + 2 * dcond.length
        + (if Sym.Void = Sym.Bool then 0 else 1) + dthen.length + delse.length := by
  obtain ⟨dcond, dthen, delse, s3, s4, s5, -, h1, -, -, -, -, -, -, -, h7, h8⟩ :=
    C19_if_condition_checked_twice (.Add (.Const_int "1") (.Const_string "a")) emptyBlock
      emptyBlock Sym.Int stateF _ _ Sym.Void rfl
      (rfl : ifBadCondition.check Sym.Int stateF
        = some { stateF with error_stream := [.cannotCompare Sym.Int Sym.String,
            .cannotCompare Sym.Int Sym.String, .ifPredicate] })
  exact ⟨rfl, rfl, dcond, dthen, delse, h1, h7, h8⟩

/-! ## Local declarations of a block -/

theorem checkLocalVarDecls_append (pre post : List VariableDecl) (s : SemState) :
    checkLocalVarDecls (pre ++ post) s
      = (checkLocalVarDecls pre s).bind (checkLocalVarDecls post) := by
  induction pre generalizing s with
  | nil => simp [checkLocalVarDecls]
  | cons d rest ih =>
    simp only [List.cons_append, checkLocalVarDecls]
    cases d.check s with
    | none => simp
    | some s1 => simp [ih]

theorem checkLocalVarDecls_singleton (d : VariableDecl) (s : SemState) :
    checkLocalVarDecls [d] s = d.check s := by
  simp only [checkLocalVarDecls]
  cases d.check s <;> rfl

theorem firstLocalDecl_append (n : Symbol) (pre : List VariableDecl) (d : VariableDecl) :
    firstLocalDecl n (pre ++ [d])
      = match firstLocalDecl n pre with
        | some v => some v
        | none => if d.getName = n then some d else none := by
  induction pre with
  | nil => simp only [List.nil_append, firstLocalDecl]
  | cons e rest ih =>
    by_cases h : e.getName = n <;> simp [firstLocalDecl, h, ih]

theorem firstLocalDecl_isSome (n : Symbol) (vars : List VariableDecl) :
    (firstLocalDecl n vars).isSome ↔ ∃ v ∈ vars, v.getName = n := by
  induction vars with
  | nil => simp [firstLocalDecl]
  | cons e rest ih =>
    by_cases h : e.getName = n
    · simp [firstLocalDecl, h]
    · simp [firstLocalDecl, h, ih]

theorem ObjectEnvironment.lookup_cons (n : Symbol) (scope : Scope)
    (outer : ObjectEnvironment) :
    ObjectEnvironment.lookup n (scope :: outer)
      = match List.lookup n scope with
        | some t => some t
        | none => ObjectEnvironment.lookup n outer := by
  simp only [ObjectEnvironment.lookup]

/-- In a freshly entered scope, the local declarations of types other than Void
are all processed, and the new scope maps each name to the type of its first
declaration. -/
theorem checkLocalVarDecls_scope (vars : List VariableDecl) (s : SemState)
    (hnv : ∀ v ∈ vars, v.getType ≠ Sym.Void) :
    ∃ s1 scope, checkLocalVarDecls vars s.enterscope = some s1 ∧
      s1.objectEnv = scope :: s.objectEnv ∧ s1.callTable = s.callTable ∧
      ∀ n, List.lookup n scope = (firstLocalDecl n vars).map VariableDecl.getType := by
  induction vars using List.reverseRecOn with
  | nil =>
    exact ⟨s.enterscope, [], rfl, rfl, rfl, by simp [firstLocalDecl]⟩
  | append_singleton pre d ih =>
    obtain ⟨s1, scope, h1, henv, hct, hl⟩ :=
      ih (fun v hv => hnv v (by simp [hv]))
    have hd : d.variable_.type ≠ Sym.Void := hnv d (by simp)
    have hvalid : (!isValidTypeName d.variable_.type) = false := by
      simp [isValidTypeName, hd]
    rw [checkLocalVarDecls_append, h1, Option.some_bind, checkLocalVarDecls_singleton]
    have hprobe : s1.objectEnv.probe d.variable_.name
        = (firstLocalDecl d.getName pre).map VariableDecl.getType := by
      rw [henv]; exact hl d.getName
    simp only [VariableDecl.check, hvalid, Bool.false_eq_true, if_false, hprobe]
    cases hf : firstLocalDecl d.getName pre with
    | some v' =>
      refine ⟨semant_error .redefined s1, scope, by simp, henv, hct, fun n => ?_⟩
      rw [firstLocalDecl_append, hl n]
      by_cases hn : d.getName = n
      · subst hn; simp [hf]
      · cases firstLocalDecl n pre <;> simp [hn]
    | none =>
      refine ⟨{ s1 with objectEnv := ((d.getName, d.getType) :: scope) :: s.objectEnv }, _,
        by simp [SemState.addid, henv, ObjectEnvironment.addid], rfl, hct, fun n => ?_⟩
      rw [firstLocalDecl_append, lookup_cons_ite, hl n]
      by_cases hn : n = d.getName
      · subst hn; simp [hf]
      · have hn' : ¬ d.getName = n := fun h => hn h.symm
        cases firstLocalDecl n pre <;> simp [hn, hn']

/-- C17: in a block whose local declarations all have types other than Void, a
local declaration is flagged iff an earlier local of the same block has the
same name, and then nothing is rebound; a name bound only in an enclosing scope
is not flagged; inside the block lookup gives the type of the first local
declaration of the name, else the outer binding; and after the block the
environment is the one before it.  The block check is this loop run in the
entered scope, then the check of the statements in the state `s1` the loop
leaves, then the exit of the scope. -/
theorem C17_block_locals (vars : List VariableDecl) (s : SemState)
    (hnv : ∀ v ∈ vars, v.getType ≠ Sym.Void) :
    ∃ s1, checkLocalVarDecls vars s.enterscope = some s1 ∧
      (∀ n, s1.objectEnv.lookup n
        = match firstLocalDecl n vars with
          | some v => some v.getType
          | none => s.objectEnv.lookup n) ∧
      (∀ pre v post, vars = pre ++ v :: post →
        ∃ sa sb, checkLocalVarDecls pre s.enterscope = some sa ∧
          checkLocalVarDecls (pre ++ [v]) s.enterscope = some sb ∧
          checkLocalVarDecls vars s.enterscope = checkLocalVarDecls post sb ∧
          ((∃ v' ∈ pre, v'.getName = v.getName) →
            sb = semant_error .redefined sa ∧
            sb.error_stream = sa.error_stream ++ [.redefined] ∧
            sb.objectEnv = sa.objectEnv) ∧
          ((¬ ∃ v' ∈ pre, v'.getName = v.getName) →
            sb.error_stream = sa.error_stream ∧
            sb.objectEnv.lookup v.getName = some v.getType)) ∧
      (∀ (stmts : Stmts) (type : Symbol),
        (StmtBlock.mk vars stmts).check type s
          = (stmts.check type s1).bind SemState.exitscope) ∧
      (∀ (stmts : Stmts) (type : Symbol) (s2 : SemState), stmts.check type s1 = some s2 →
        s2.objectEnv = s1.objectEnv ∧
        ∃ s', s2.exitscope = some s' ∧ s'.objectEnv = s.objectEnv ∧
          s'.error_stream = s2.error_stream) ∧
      (∀ (stmts : Stmts) (type : Symbol) (s' : SemState),
        (StmtBlock.mk vars stmts).check type s = some s' → s'.objectEnv = s.objectEnv) := by
  obtain ⟨s1, scope, h1, henv, -, hl⟩ := checkLocalVarDecls_scope vars s hnv
  refine ⟨s1, h1, fun n => ?_, ?_, fun stmts type => ?_, fun stmts type s2 h2 => ?_,
    fun stmts type s' h => (StmtBlock.block_check_keepsEnv _ type s s' h).1⟩
  rotate_left 2
  · simp only [StmtBlock.check, h1]
    cases stmts.check type s1 <;> rfl
  · have e2 := (Stmts.stmts_check_keepsEnv stmts type s1 s2 h2).1
    refine ⟨e2, { s2 with objectEnv := s.objectEnv }, ?_, rfl, rfl⟩
    exact SemState.exitscope_of_env s2 s.objectEnv (by rw [e2, henv]; rfl)
  · rw [henv, ObjectEnvironment.lookup_cons, hl n]
    cases firstLocalDecl n vars <;> rfl
  · intro pre v post hd
    have hnvpre : ∀ v ∈ pre, v.getType ≠ Sym.Void :=
      fun w hw => hnv w (by rw [hd]; simp [hw])
    have hv : v.variable_.type ≠ Sym.Void := hnv v (by rw [hd]; simp)
    have hvalid : (!isValidTypeName v.variable_.type) = false := by
      simp [isValidTypeName, hv]
    obtain ⟨sa, scopea, ha, henva, -, hla⟩ := checkLocalVarDecls_scope pre s hnvpre
    have hstep : checkLocalVarDecls (pre ++ [v]) s.enterscope = v.check sa := by
      rw [checkLocalVarDecls_append, ha, Option.some_bind, checkLocalVarDecls_singleton]
    have hrest : ∀ sb, checkLocalVarDecls (pre ++ [v]) s.enterscope = some sb →
        checkLocalVarDecls vars s.enterscope = checkLocalVarDecls post sb := by
      intro sb hb
      have : vars = (pre ++ [v]) ++ post := by simp [hd]
      rw [this, checkLocalVarDecls_append, hb, Option.some_bind]
    have hprobe : sa.objectEnv.probe v.variable_.name
        = (firstLocalDecl v.getName pre).map VariableDecl.getType := by
      rw [henva]; exact hla v.getName
    have hex := firstLocalDecl_isSome v.getName pre
    cases hf : firstLocalDecl v.getName pre with
    | some v' =>
      have hb : checkLocalVarDecls (pre ++ [v]) s.enterscope
          = some (semant_error .redefined sa) := by
        rw [hstep]
        simp only [VariableDecl.check, hvalid, Bool.false_eq_true, if_false, hprobe, hf]
        simp
      refine ⟨sa, _, ha, hb, hrest _ hb, fun _ => ⟨rfl, rfl, rfl⟩, fun hne => ?_⟩
      rw [hf] at hex
      exact absurd (hex.mp rfl) hne
    | none =>
      have hb : checkLocalVarDecls (pre ++ [v]) s.enterscope
          = some { sa with objectEnv := ((v.getName, v.getType) :: scopea) :: s.objectEnv } := by
        rw [hstep]
        simp only [VariableDecl.check, hvalid, Bool.false_eq_true, if_false, hprobe, hf]
        simp [SemState.addid, henva, ObjectEnvironment.addid]
      refine ⟨sa, _, ha, hb, hrest _ hb, fun he => ?_, fun _ => ⟨rfl, ?_⟩⟩
      · rw [hf] at hex
        exact absurd (hex.mpr he) (by simp)
      · simp [ObjectEnvironment.lookup_cons, lookup_cons_ite]

/-- C17 on the block `{ Int x; Int y; Float x; if (x == y) ... if (z) ... }`
inside a scope that binds `x` to Bool: only the second `x` is flagged, `x` is
Int inside the block (so `x == y` is accepted), the outer binding is used for
names the block does not declare, and the block leaves the environment as it
found it. -/
theorem C17_block_locals_witness :
    (∀ v ∈ [declXInt, declYInt, declXFloat], v.getType ≠ Sym.Void) ∧
    ∃ s1, checkLocalVarDecls [declXInt, declYInt, declXFloat] stateX.enterscope = some s1 ∧
      (StmtBlock.mk [declXInt, declYInt, declXFloat] blockStmtsX).check Sym.Int stateX
        = (blockStmtsX.check Sym.Int s1).bind SemState.exitscope ∧
      ((StmtBlock.mk [declXInt, declYInt, declXFloat] blockStmtsX).check Sym.Int stateX).map
          (fun s' => (s'.error_stream, s'.objectEnv))
        = some ([.redefined, .objectUndefined "z", .objectUndefined "z", .ifPredicate],
            stateX.objectEnv) ∧
      s1.error_stream = [.redefined] ∧
      s1.objectEnv.lookup "x" = some Sym.Int ∧
      s1.objectEnv.lookup "z" = stateX.objectEnv.lookup "z" := by
  have hnv : ∀ v ∈ [declXInt, declYInt, declXFloat], v.getType ≠ Sym.Void := by decide
  obtain ⟨s1, h1, h2, -, h4, -, -⟩ :=
    C17_block_locals [declXInt, declYInt, declXFloat] stateX hnv
  refine ⟨hnv, s1, h1, h4 blockStmtsX Sym.Int, by decide, ?_, ?_, ?_⟩
  · have : checkLocalVarDecls [declXInt, declYInt, declXFloat] stateX.enterscope
        = some ⟨[.redefined], [[("y", Sym.Int), ("x", Sym.Int)], [("x", Sym.Bool)]], []⟩ := rfl
    rw [this] at h1
    cases h1
    rfl
  · rw [h2 "x"]; rfl
  · rw [h2 "z"]; rfl

/-! ## The parameter loop of a function declaration -/

theorem checkParams_append (fn : Symbol) (pre post : List Variable) (s : SemState) :
    checkParams fn (pre ++ post) s = (checkParams fn pre s).bind (checkParams fn post) := by
  induction pre generalizing s with
  | nil => simp [checkParams]
  | cons d rest ih =>
    simp only [List.cons_append, checkParams]
    cases checkParam fn d s with
    | none => simp
    | some s1 => simp [ih]

theorem checkParams_singleton (fn : Symbol) (p : Variable) (s : SemState) :
    checkParams fn [p] s = checkParam fn p s := by
  simp only [checkParams]
  cases checkParam fn p s <;> rfl

theorem lastParamType_append (n : Symbol) (pre : List Variable) (p : Variable) :
    lastParamType n (pre ++ [p])
      = if p.name = n ∧ p.type ≠ Sym.Void then some p.type else lastParamType n pre := by
  induction pre with
  | nil => simp [lastParamType]
  | cons e rest ih =>
    rw [List.cons_append, lastParamType, ih, lastParamType]
    by_cases h : p.name = n ∧ p.type ≠ Sym.Void
    · rw [if_pos h, if_pos h]
    · rw [if_neg h, if_neg h]

theorem lastParamType_ne_void (n : Symbol) (params : List Variable) :
    lastParamType n params ≠ some Sym.Void := by
  induction params with
  | nil => simp [lastParamType]
  | cons e rest ih =>
    simp only [lastParamType]
    cases h : lastParamType n rest with
    | some t =>
      rw [h] at ih
      simpa using ih
    | none =>
      by_cases hc : e.name = n ∧ e.type ≠ Sym.Void
      · simp [hc]
      · simp [hc]

/-- One round of the parameter loop in a state whose innermost scope is `scope`:
the duplicate diagnostic is written iff the innermost scope binds the name to
the parameter's own type, and the parameter is bound iff it is not Void and not
so flagged. -/
theorem checkParam_step (fn : Symbol) (p : Variable) (E : List Diag) (scope : Scope)
    (outer : ObjectEnvironment) (ct : CallTable) :
    checkParam fn p ⟨E, scope :: outer, ct⟩
      = some ⟨E ++ (if p.type = Sym.Void then [Diag.parameterVoid fn] else [])
            ++ (if List.lookup p.name scope = some p.type
                then [Diag.parameterDuplicate fn p.name] else []),
          (if p.type ≠ Sym.Void ∧ List.lookup p.name scope ≠ some p.type
            then (p.name, p.type) :: scope else scope) :: outer, ct⟩ := by
  obtain ⟨pn, pt⟩ := p
  by_cases hv : pt = Sym.Void
  · subst hv
    by_cases hd : List.lookup pn scope = some Sym.Void <;>
      simp [checkParam, hd, semant_error, ObjectEnvironment.probe]
  · by_cases hd : List.lookup pn scope = some pt <;>
      simp [checkParam, hv, hd, semant_error, ObjectEnvironment.probe, SemState.addid,
        ObjectEnvironment.addid]

/-- In a freshly entered scope the parameter loop always returns, and the new
scope maps each name to the type of the last parameter of that name whose type
is not Void. -/
theorem checkParams_scope (fn : Symbol) (params : List Variable) (s : SemState) :
    ∃ s1 scope, checkParams fn params s.enterscope = some s1 ∧
      s1.objectEnv = scope :: s.objectEnv ∧ s1.callTable = s.callTable ∧
      ∀ n, List.lookup n scope = lastParamType n params := by
  induction params using List.reverseRecOn with
  | nil => exact ⟨s.enterscope, [], rfl, rfl, rfl, by simp [lastParamType]⟩
  | append_singleton pre p ih =>
    obtain ⟨⟨E1, env1, ct1⟩, scope, h1, henv, hct, hl⟩ := ih
    simp only at henv hct
    subst henv hct
    rw [checkParams_append, h1, Option.some_bind, checkParams_singleton, checkParam_step]
    refine ⟨_, _, rfl, rfl, rfl, fun n => ?_⟩
    rw [lastParamType_append]
    by_cases hv : p.type = Sym.Void
    · simp [hv, hl n]
    · by_cases hd : List.lookup p.name scope = some p.type
      · simp only [hv, hd, ne_eq, not_true_eq_false, and_false, if_false, not_false_eq_true,
          and_true]
        by_cases hn : p.name = n
        · subst hn; simp [hd]
        · simp [hn, hl n]
      · simp only [hv, hd, ne_eq, not_false_eq_true, and_self, if_true, and_true,
          lookup_cons_ite]
        by_cases hn : n = p.name
        · subst hn; simp
        · have hn' : ¬ p.name = n := fun h => hn h.symm
          simp [hn, hn', hl n]

/-- C18, as the code has it: a parameter is flagged with the duplicate-name
diagnostic, and then excluded from binding, iff the nearest earlier parameter of
the same name that is not Void has the same type; a parameter that is not Void
and not so flagged is bound; and in the body the name has the type of its last
parameter that is not Void. -/
theorem C18_parameter_duplicates (fn : Symbol) (params : List Variable) (s : SemState) :
    ∃ s1, checkParams fn params s.enterscope = some s1 ∧
      (∀ n, s1.objectEnv.lookup n
        = match lastParamType n params with
          | some t => some t
          | none => s.objectEnv.lookup n) ∧
      (∀ pre p post, params = pre ++ p :: post →
        ∃ sa sb ds, checkParams fn pre s.enterscope = some sa ∧
          checkParams fn (pre ++ [p]) s.enterscope = some sb ∧
          checkParams fn params s.enterscope = checkParams fn post sb ∧
          sb.error_stream = sa.error_stream ++ ds ∧
          (Diag.parameterDuplicate fn p.name ∈ ds ↔ lastParamType p.name pre = some p.type) ∧
          (lastParamType p.name pre = some p.type → sb.objectEnv = sa.objectEnv) ∧
          (p.type ≠ Sym.Void → lastParamType p.name pre ≠ some p.type →
            ds = [] ∧ sb.objectEnv.probe p.name = some p.type)) := by
  obtain ⟨s1, scope, h1, henv, -, hl⟩ := checkParams_scope fn params s
  refine ⟨s1, h1, fun n => ?_, ?_⟩
  · rw [henv, ObjectEnvironment.lookup_cons, hl n]
  · intro pre p post hd
    obtain ⟨⟨Ea, enva, cta⟩, scopea, ha, henva, hcta, hla⟩ := checkParams_scope fn pre s
    simp only at henva hcta
    subst henva hcta
    have hb : checkParams fn (pre ++ [p]) s.enterscope
        = some ⟨Ea ++ (if p.type = Sym.Void then [Diag.parameterVoid fn] else [])
            ++ (if List.lookup p.name scopea = some p.type
                then [Diag.parameterDuplicate fn p.name] else []),
          (if p.type ≠ Sym.Void ∧ List.lookup p.name scopea ≠ some p.type
            then (p.name, p.type) :: scopea else scopea) :: s.objectEnv, s.callTable⟩ := by
      rw [checkParams_append, ha, Option.some_bind, checkParams_singleton, checkParam_step]
    have hrest := checkParams_append fn (pre ++ [p]) post s.enterscope
    rw [hb, Option.some_bind] at hrest
    have hparams : params = (pre ++ [p]) ++ post := by simp [hd]
    rw [← hparams] at hrest
    refine ⟨_, _, (if p.type = Sym.Void then [Diag.parameterVoid fn] else [])
        ++ (if List.lookup p.name scopea = some p.type
            then [Diag.parameterDuplicate fn p.name] else []),
      ha, hb, hrest, by simp only [List.append_assoc], ?_, ?_, ?_⟩
    · rw [← hla p.name]
      by_cases hv : p.type = Sym.Void <;>
        by_cases hdup : List.lookup p.name scopea = some p.type <;> simp [hv, hdup]
    · intro hdup
      rw [← hla p.name] at hdup
      simp [hdup]
    · intro hv hdup
      rw [← hla p.name] at hdup
      simp [hv, hdup, ObjectEnvironment.probe]

/-- C18 on the parameters `x : Int, x : Float, x : Int` of `f`: checking the
third after the first two writes no diagnostic and binds it, because the
nearest earlier `x` is a Float. -/
theorem C18_parameter_duplicates_witness :
    ∃ sa sb ds, checkParams "f" [⟨"x", Sym.Int⟩, ⟨"x", Sym.Float⟩] stateGlobal.enterscope
        = some sa ∧
      checkParams "f" paramsXXX stateGlobal.enterscope = some sb ∧
      sb.error_stream = sa.error_stream ++ ds ∧ ds = [] ∧
      sb.objectEnv.probe "x" = some Sym.Int := by
  obtain ⟨-, -, -, h3⟩ := C18_parameter_duplicates "f" paramsXXX stateGlobal
  obtain ⟨sa, sb, ds, ha, hb, -, he, -, -, hn⟩ :=
    h3 [⟨"x", Sym.Int⟩, ⟨"x", Sym.Float⟩] ⟨"x", Sym.Int⟩ [] rfl
  obtain ⟨hds, hp⟩ := hn (by decide) (by decide)
  exact ⟨sa, sb, ds, ha, hb, he, hds, hp⟩

/-- C18 as stated fails on the parameters `x : Int, x : Float, x : Int`: the
first parameter is bound with the name and the type of the third, yet the
third is not flagged and is bound as well. -/
theorem C18_duplicate_counterexample :
    (checkParams "f" [⟨"x", Sym.Int⟩] stateGlobal.enterscope).map
        (fun s => (s.error_stream, s.objectEnv))
      = some ([], [[("x", Sym.Int)], []]) ∧
    (checkParams "f" paramsXXX stateGlobal.enterscope).map
        (fun s => (s.error_stream, s.objectEnv))
      = some ([], [[("x", Sym.Int), ("x", Sym.Float), ("x", Sym.Int)], []]) := by
  simp only [paramsXXX, stateGlobal, SemState.enterscope, ObjectEnvironment.enterscope,
    checkParams, checkParam_step]
  decide

/-! ## The phase order of the driver -/

theorem install_call_objectEnv (d : Decl) (s : SemState) :
    (install_call d s).objectEnv = s.objectEnv := by
  cases d with
  | variableDecl v => rfl
  | callDecl c =>
    simp only [install_call]
    split
    · rfl
    · split <;> rfl

theorem install_calls_objectEnv (decls : List Decl) (s : SemState) :
    (install_calls decls s).objectEnv = s.objectEnv := by
  induction decls using List.reverseRecOn with
  | nil => rfl
  | append_singleton pre d ih =>
    rw [install_calls_append, install_calls_singleton, install_call_objectEnv, ih]

theorem check_main_keeps (s : SemState) :
    (check_main s).objectEnv = s.objectEnv ∧ (check_main s).callTable = s.callTable := by
  unfold check_main
  split
  · exact ⟨rfl, rfl⟩
  · simp only
    split <;> split <;> exact ⟨rfl, rfl⟩

theorem check_callList_append (pre post : List (Symbol × CallDecl)) (s : SemState) :
    check_callList (pre ++ post) s = (check_callList pre s).bind (check_callList post) := by
  induction pre generalizing s with
  | nil => simp [check_callList]
  | cons d rest ih =>
    obtain ⟨n, c⟩ := d
    simp only [List.cons_append, check_callList]
    cases c.check s with
    | none => simp
    | some s1 => simp [ih]

theorem check_callList_keepsEnv (l : List (Symbol × CallDecl)) : KeepsEnv (check_callList l) := by
  induction l with
  | nil =>
    intro s s' h
    simp only [check_callList, Option.some.injEq] at h
    subst h; exact ⟨rfl, rfl⟩
  | cons d rest ih =>
    obtain ⟨n, c⟩ := d
    intro s s' h
    simp only [check_callList] at h
    cases hc : c.check s with
    | none => simp [hc] at h
    | some s1 =>
      simp only [hc] at h
      obtain ⟨e1, c1⟩ := CallDecl.callDecl_check_keepsEnv c s s1 hc
      obtain ⟨e2, c2⟩ := ih s1 s' h
      exact ⟨e2.trans e1, c2.trans c1⟩

theorem CallDecl.check_eq_bodyState (c : CallDecl) (s : SemState) :
    c.check s = (c.bodyState s).bind
      (fun sb => (c.body.check c.getType sb).bind SemState.exitscope) := by
  simp only [CallDecl.check, CallDecl.bodyState]
  cases checkParams c.name c.getVariables
      (if (!isValidCallName c.getType) = true then semant_error .returnTypePrint s
        else s).enterscope with
  | none => rfl
  | some s2 =>
    simp only [Option.some_bind]
    cases c.body.check c.getType s2 <;> rfl

theorem CallDecl.bodyState_shape (c : CallDecl) (s sb : SemState)
    (h : c.bodyState s = some sb) :
    sb.callTable = s.callTable ∧ ∃ paramScope, sb.objectEnv = paramScope :: s.objectEnv := by
  unfold CallDecl.bodyState at h
  generalize hs1 : (if (!isValidCallName c.getType) = true then
    semant_error .returnTypePrint s else s) = s1 at h
  have e1 : s1.objectEnv = s.objectEnv ∧ s1.callTable = s.callTable := by
    rw [← hs1]; split <;> exact ⟨rfl, rfl⟩
  obtain ⟨s2, scope, h2, henv, hct, -⟩ := checkParams_scope c.name c.getVariables s1
  rw [h2] at h
  simp only [Option.some.injEq] at h
  subst h
  exact ⟨hct.trans e1.2, scope, by rw [henv, e1.1]⟩

theorem ObjectEnvironment.lookup_append (x : Symbol) (inner outer : ObjectEnvironment)
    (h : ∀ sc ∈ inner, List.lookup x sc = none) :
    ObjectEnvironment.lookup x (inner ++ outer) = ObjectEnvironment.lookup x outer := by
  induction inner with
  | nil => rfl
  | cons sc rest ih =>
    rw [List.cons_append, ObjectEnvironment.lookup_cons, h sc (by simp)]
    exact ih (fun sc' h' => h sc' (by simp [h']))

/-- C14: before `check_calls` checks any function, the registry holds the first
declaration of every function name other than `printf`, wherever it stands in
the list, and the outermost scope binds every global variable; whichever
functions were checked before it, a function is checked in a state with that
registry and that environment, and its body in a state with that registry and
one parameter scope above that environment; and there a reference to a declared
global that no inner scope binds returns the global's type with no
diagnostic. -/
theorem C14_forward_references (decls : List Decl) :
    ∃ s3, stateBeforeCalls decls = some s3 ∧
      semant decls = (check_calls s3).bind SemState.exitscope ∧
      (∀ n, n ≠ Sym.print → s3.callTable.find n = firstCallDecl n decls) ∧
      (∀ n, s3.objectEnv.lookup n
        = (firstVariableDecl n decls).map VariableDecl.getType) ∧
      s3.objectEnv.depth = 1 ∧
      (∀ pre n c post, s3.callTable = pre ++ (n, c) :: post →
        check_calls s3
          = (check_callList pre s3).bind (fun sc => (c.check sc).bind (check_callList post))) ∧
      (∀ (visited : List (Symbol × CallDecl)) (c : CallDecl) (sc : SemState),
        check_callList visited s3 = some sc →
        sc.callTable = s3.callTable ∧ sc.objectEnv = s3.objectEnv ∧
        c.check sc = (c.bodyState sc).bind
          (fun sb => (c.body.check c.getType sb).bind SemState.exitscope) ∧
        ∀ sb, c.bodyState sc = some sb →
          sb.callTable = s3.callTable ∧
          ∃ paramScope, sb.objectEnv = paramScope :: s3.objectEnv) ∧
      (∀ (inner : List Scope) (st : SemState) (x : Symbol) (v : VariableDecl),
        st.objectEnv = inner ++ s3.objectEnv →
        firstVariableDecl x decls = some v →
        (∀ scope ∈ inner, List.lookup x scope = none) →
        (Expr.Object x).checkType st = some (v.getType, st)) := by
  have henv0 : (check_main (install_calls decls SemState.initial)).enterscope.objectEnv
      = ObjectEnvironment.enterscope [] := by
    simp only [SemState.enterscope, (check_main_keeps _).1, install_calls_objectEnv]
    rfl
  obtain ⟨s3, scope, h3, henv, hct, hl⟩ := install_globalVars_scope decls _ henv0
  have hct' : s3.callTable = (install_calls decls SemState.initial).callTable := by
    rw [hct]; exact (check_main_keeps _).2
  have hlookup : ∀ n, s3.objectEnv.lookup n
      = (firstVariableDecl n decls).map VariableDecl.getType := by
    intro n; rw [henv, ObjectEnvironment.lookup_single, hl n]
  refine ⟨s3, h3, ?_, ?_, hlookup, by rw [henv]; rfl, ?_, ?_, ?_⟩
  · simp only [semant, h3]
    cases check_calls s3 <;> rfl
  · intro n hn
    rw [hct', install_calls_find decls SemState.initial rfl n]
    simp [hn]
  · intro pre n c post hsplit
    unfold check_calls
    rw [hsplit, check_callList_append]
    cases check_callList pre s3 with
    | none => rfl
    | some sc =>
      simp only [Option.some_bind, check_callList]
      cases c.check sc <;> rfl
  · intro visited c sc hpre
    obtain ⟨e1, c1⟩ := check_callList_keepsEnv visited s3 sc hpre
    refine ⟨c1, e1, CallDecl.check_eq_bodyState c sc, fun sb hsb => ?_⟩
    obtain ⟨h1, ps, h2⟩ := CallDecl.bodyState_shape c sc sb hsb
    exact ⟨h1.trans c1, ps, by rw [h2, e1]⟩
  · intro inner st x v hst hv hinner
    have : st.objectEnv.lookup x = some v.getType := by
      rw [hst, ObjectEnvironment.lookup_append x inner _ hinner, hlookup x, hv]
      rfl
    simp only [Expr.checkType, this]

/-- C14 on the program `main`, `later`, `Bool g`, where `main` calls `later`
and reads `g`, both declared after it: the analysis returns without any
diagnostic. -/
theorem C14_forward_references_witness :
    (semant programForward).map (fun s => (s.error_stream, s.objectEnv.depth))
      = some ([], 0) ∧
    ∃ s3, stateBeforeCalls programForward = some s3 ∧
      (s3.callTable.find "later").map CallDecl.getType = some Sym.Bool ∧
      s3.objectEnv.lookup "g" = some Sym.Bool := by
  obtain ⟨s3, h3, -, hf, hg, -, -, -, -⟩ := C14_forward_references programForward
  refine ⟨by decide, s3, h3, ?_, ?_⟩
  · rw [hf "later" (by decide)]; rfl
  · rw [hg "g"]; rfl

/-! ## Operators as operands -/

theorem compareRule_type (t1 t2 : Symbol) (s : SemState) :
    (compareRule t1 t2 s).1 = Sym.Bool ∨ (compareRule t1 t2 s).1 = Sym.Void := by
  unfold compareRule; split
  · exact Or.inr rfl
  · exact Or.inl rfl

theorem equalityRule_type (t1 t2 : Symbol) (s : SemState) :
    (equalityRule t1 t2 s).1 = Sym.Bool ∨ (equalityRule t1 t2 s).1 = Sym.Void := by
  unfold equalityRule; split
  · exact Or.inr rfl
  · exact Or.inl rfl

theorem modRule_type (t1 t2 : Symbol) (s : SemState) :
    (modRule t1 t2 s).1 = Sym.Bool ∨ (modRule t1 t2 s).1 = Sym.Void := by
  unfold modRule; split
  · exact Or.inr rfl
  · exact Or.inl rfl

theorem negRule_type (t1 : Symbol) (s : SemState) :
    (negRule t1 s).1 = Sym.Bool ∨ (negRule t1 s).1 = Sym.Void := by
  unfold negRule; split
  · exact Or.inr rfl
  · exact Or.inl rfl

theorem binary_result_type (rule : Symbol → Symbol → SemState → Symbol × SemState)
    (hrule : ∀ t1 t2 s, (rule t1 t2 s).1 = Sym.Bool ∨ (rule t1 t2 s).1 = Sym.Void)
    (c1 : Option (Symbol × SemState)) (f : SemState → Option (Symbol × SemState))
    (t : Symbol) (s' : SemState)
    (h : (match c1 with
      | none => none
      | some (type1, s1) =>
        match f s1 with
        | none => none
        | some (type2, s2) => some (rule type1 type2 s2)) = some (t, s')) :
    t = Sym.Bool ∨ t = Sym.Void := by
  cases c1 with
  | none => simp at h
  | some r1 =>
    obtain ⟨t1, s1⟩ := r1
    simp only at h
    cases hf : f s1 with
    | none => simp [hf] at h
    | some r2 =>
      obtain ⟨t2, s2⟩ := r2
      simp only [hf, Option.some.injEq] at h
      have := hrule t1 t2 s2
      rw [h] at this
      exact this

/-- The check of an operator expression returns Bool or Void. -/
theorem Expr.operator_type (e : Expr) (s s' : SemState) (t : Symbol)
    (hop : e.isOperator = true) (h : e.checkType s = some (t, s')) :
    t = Sym.Bool ∨ t = Sym.Void := by
  cases e <;> simp only [Expr.isOperator, Bool.false_eq_true] at hop
  case Neg e1 =>
    simp only [Expr.checkType] at h
    cases h1 : e1.checkType s with
    | none => simp [h1] at h
    | some r1 =>
      obtain ⟨t1, s1⟩ := r1
      simp only [h1, Option.some.injEq] at h
      have := negRule_type t1 s1
      rw [h] at this
      exact this
  case Mod e1 e2 =>
    simp only [Expr.checkType] at h
    exact binary_result_type modRule modRule_type _ (fun s1 => e2.checkType s1) t s' h
  case Equ e1 e2 =>
    simp only [Expr.checkType] at h
    exact binary_result_type equalityRule equalityRule_type _ (fun s1 => e2.checkType s1)
      t s' h
  case Neq e1 e2 =>
    simp only [Expr.checkType] at h
    exact binary_result_type equalityRule equalityRule_type _ (fun s1 => e2.checkType s1)
      t s' h
  all_goals
    simp only [Expr.checkType] at h
    exact binary_result_type compareRule compareRule_type _ (fun s1 => _) t s' h

theorem bool_void_not_numeric (t : Symbol) (h : t = Sym.Bool ∨ t = Sym.Void) :
    ¬(t = Sym.Int ∨ t = Sym.Float) := by
  rcases h with rfl | rfl <;> decide

/-- C20: the check of an arithmetic, modulo, negate, relational or equality
operator returns Bool or Void; hence with such an expression as left operand,
`+`, `-`, `*`, `/`, `%`, `<`, `<=`, `>`, `>=` and unary `-` always return Void and
add one diagnostic at the outer node, and assigning it to an Int variable adds
the type-mismatch diagnostic. -/
theorem C20_operator_operands (e1 : Expr) (s s1 : SemState) (t1 : Symbol)
    (hop : e1.isOperator = true) (h1 : e1.checkType s = some (t1, s1)) :
    (t1 = Sym.Bool ∨ t1 = Sym.Void) ∧
    (∀ (e2 : Expr) (t2 : Symbol) (s2 : SemState), e2.checkType s1 = some (t2, s2) →
      (∀ op ∈ [Expr.Add, Expr.Minus, Expr.Multi, Expr.Divide, Expr.Lt, Expr.Le, Expr.Gt,
          Expr.Ge],
        (op e1 e2).checkType s = some (Sym.Void, semant_error (.cannotCompare t1 t2) s2)) ∧
      (Expr.Mod e1 e2).checkType s = some (Sym.Void, semant_error (.cannotMod t1 t2) s2) ∧
      (semant_error (.cannotCompare t1 t2) s2).semant_errors = s2.semant_errors + 1 ∧
      (semant_error (.cannotMod t1 t2) s2).semant_errors = s2.semant_errors + 1) ∧
    (Expr.Neg e1).checkType s = some (Sym.Void, semant_error (.noNegative t1) s1) ∧
    (∀ x : Symbol, s.objectEnv.lookup x = some Sym.Int →
      (Expr.Assign x e1).checkType s
        = some (Sym.Int, semant_error (.rightValueType Sym.Int t1) s1)) := by
  have ht := Expr.operator_type e1 s s1 t1 hop h1
  have hn := bool_void_not_numeric t1 ht
  refine ⟨ht, fun e2 t2 s2 h2 => ⟨fun op hmem => ?_, ?_, semant_errors_semant_error _ _,
    semant_errors_semant_error _ _⟩, ?_, fun x hx => ?_⟩
  · have hc : ¬((t1 = Sym.Int ∨ t1 = Sym.Float) ∧ (t2 = Sym.Int ∨ t2 = Sym.Float)) :=
      fun h => hn h.1
    simp only [List.mem_cons, List.mem_singleton, List.not_mem_nil, or_false] at hmem
    rcases hmem with rfl | rfl | rfl | rfl | rfl | rfl | rfl | rfl
    all_goals simp only [Expr.checkType, h1, h2, compareRule_reject t1 t2 s2 hc]
  · have hm : ¬(t1 = Sym.Int ∧ t2 = Sym.Int) := fun h => hn (Or.inl h.1)
    simp only [Expr.checkType, h1, h2, modRule_reject t1 t2 s2 hm]
  · simp only [Expr.checkType, h1, negRule_reject t1 s1 hn]
  · have hne : (Sym.Int == t1) = false := by
      simp only [beq_eq_false_iff_ne, ne_eq]
      exact fun h => hn (Or.inl h.symm)
    have hp := (Expr.checkType_preserves e1 s s1 t1 h1).1
    simp [Expr.checkType, hx, h1, hp, sameType, hne]

/-- C20 on `(1 + 2) + 3`, which yields exactly one diagnostic, and on
`x = 1 + 2` with `x` an Int variable, which yields the type mismatch. -/
theorem C20_operator_operands_witness :
    exprOnePlusTwo.isOperator = true ∧
    exprOnePlusTwo.checkType stateXInt = some (Sym.Bool, stateXInt) ∧
    (Expr.Add exprOnePlusTwo (.Const_int "3")).checkType stateXInt
      = some (Sym.Void, semant_error (.cannotCompare Sym.Bool Sym.Int) stateXInt) ∧
    (semant_error (.cannotCompare Sym.Bool Sym.Int) stateXInt).semant_errors = 1 ∧
    (Expr.Assign "x" exprOnePlusTwo).checkType stateXInt
      = some (Sym.Int, semant_error (.rightValueType Sym.Int Sym.Bool) stateXInt) :=
  ⟨rfl, rfl,
    ((C20_operator_operands exprOnePlusTwo stateXInt stateXInt Sym.Bool rfl rfl).2.1
      (.Const_int "3") Sym.Int stateXInt rfl).1 Expr.Add (by simp),
    rfl,
    (C20_operator_operands exprOnePlusTwo stateXInt stateXInt Sym.Bool rfl rfl).2.2.2
      "x" rfl⟩

/-! ## Calls of undeclared functions -/

/-- C21: a call whose name is neither registered nor `printf`, with at least
one actual, is not reported as undefined.  Once its first actual is checked
with type `t`, the call returns Void and adds one diagnostic of its own iff `t`
is not String; the other actuals are not checked, so the result is the same
whatever they are. -/
theorem C21_undeclared_call (name : Symbol) (first : Actual) (rest : Actuals)
    (s s1 : SemState) (t : Symbol)
    (hf : s.callTable.find name = none) (hp : name ≠ Sym.print)
    (h1 : first.checkType s = some (t, s1)) :
    (Expr.Call name (.cons first rest)).checkType s
      = some (Sym.Void, if t = Sym.String then s1 else semant_error .printFirstString s1) ∧
    (t = Sym.String → (Expr.Call name (.cons first rest)).checkType s = some (Sym.Void, s1)) ∧
    (t ≠ Sym.String →
      (Expr.Call name (.cons first rest)).checkType s
        = some (Sym.Void, semant_error .printFirstString s1) ∧
      (semant_error .printFirstString s1).error_stream
        = s1.error_stream ++ [.printFirstString] ∧
      (semant_error .printFirstString s1).semant_errors = s1.semant_errors + 1) ∧
    (∀ rest' : Actuals, (Expr.Call name (.cons first rest')).checkType s
      = (Expr.Call name (.cons first rest)).checkType s) := by
  have hp' : (name != Sym.print) = true := by simp [hp]
  have hcall : ∀ r : Actuals, (Expr.Call name (.cons first r)).checkType s
      = some (Sym.Void, if t = Sym.String then s1 else semant_error .printFirstString s1) := by
    intro r
    by_cases ht : t = Sym.String
    · simp [Expr.checkType, hf, hp', Actuals.checkFirst, h1, sameType, ht]
    · simp [Expr.checkType, hf, hp', Actuals.checkFirst, h1, sameType, ht]
  refine ⟨hcall rest, fun ht => ?_, fun ht => ⟨?_, rfl, semant_errors_semant_error _ _⟩,
    fun rest' => ?_⟩
  · rw [hcall rest, if_pos ht]
  · rw [hcall rest, if_neg ht]
  · rw [hcall rest', hcall rest]

/-- C21 on the undeclared function `g`: `g("a", true && false)` is accepted
without any diagnostic although its second actual has no defined check, and
`g(42)` gets the one diagnostic about its first actual. -/
theorem C21_undeclared_call_witness :
    stateF.callTable.find "g" = none ∧ "g" ≠ Sym.print ∧
    (Actual.mk (.Const_string "a")).checkType stateF = some (Sym.String, stateF) ∧
    (Expr.Call "g" actualsAStub).checkType stateF = some (Sym.Void, stateF) ∧
    stateF.semant_errors = 0 ∧
    (Actual.mk (.Const_int "42")).checkType stateF = some (Sym.Int, stateF) ∧
    (Expr.Call "g" actuals42).checkType stateF
      = some (Sym.Void, semant_error .printFirstString stateF) :=
  ⟨rfl, by decide, rfl,
    (C21_undeclared_call "g" (.mk (.Const_string "a")) _ stateF stateF Sym.String rfl
      (by decide) rfl).2.1 rfl,
    rfl, rfl,
    ((C21_undeclared_call "g" (.mk (.Const_int "42")) .nil stateF stateF Sym.Int rfl
      (by decide) rfl).2.2.1 (by decide)).1⟩

end Semant
